import Mathlib

/-!
# Verification of the `doc_analyzer` section/chunk/query pipeline

Shallow embedding of the Python sources under `src/doc_analyzer/`
(`segment/section_parser.py`, `chunk/chunker.py`, `query/sections_query.py`,
`pipeline.py`), together with proofs settling the frozen claims about the
natural-language specification of the repository.

Python strings are modelled as Lean `String`; the character-level Python
predicates (`isdigit`, `isalpha`, `isupper`, `lower`, `upper`, NFKD
decomposition, combining-mark detection) are modelled by explicit tables
covering ASCII together with the accented characters exercised in this
development (for these characters the tables agree with Python/Unicode).
Python floats are modelled as exact unnormalized fractions (`PyFloat`): all
float operations performed by the source (sum, division by a count,
comparison, rounding, averaging) are exact rational operations here.
-/

/-! ## Python character model -/

def pyIsDigit (c : Char) : Bool := '0' ≤ c && c ≤ '9'

def pyIsAsciiUpper (c : Char) : Bool := 'A' ≤ c && c ≤ 'Z'

def pyIsAsciiLower (c : Char) : Bool := 'a' ≤ c && c ≤ 'z'

/-- Python `str.isalpha` per character, restricted to the character set used
in this development. -/
def pyIsAlpha (c : Char) : Bool :=
  pyIsAsciiUpper c || pyIsAsciiLower c || c = 'É' || c = 'é'

/-- A character is cased (for `str.isupper`). -/
def pyIsCased (c : Char) : Bool := pyIsAlpha c

/-- An upper-case cased character. -/
def pyIsUpperChar (c : Char) : Bool := pyIsAsciiUpper c || c = 'É'

def pyToUpperChar (c : Char) : Char :=
  if pyIsAsciiLower c then Char.ofNat (c.toNat - 32)
  else if c = 'é' then 'É' else c

def pyToLowerChar (c : Char) : Char :=
  if pyIsAsciiUpper c then Char.ofNat (c.toNat + 32)
  else if c = 'É' then 'é' else c

/-- Python `\s` / `str.split()` whitespace (ASCII part). -/
def pyIsWs (c : Char) : Bool :=
  c = ' ' || c = '\t' || c = '\n' || c = '\x0d' || c = '\x0b' || c = '\x0c'

/-- NFKD decomposition of one character (table for the characters used
in this development; ASCII decomposes to itself). -/
def nfkdChar (c : Char) : List Char :=
  if c = 'É' then ['E', '́']
  else if c = 'é' then ['e', '́']
  else [c]

/-- Unicode combining marks occurring in this development. -/
def pyIsCombining (c : Char) : Bool := c = '́'

/-! ## Python string helpers -/

/-- `unicodedata.normalize("NFKD", s)` followed by dropping combining
characters, as done by the `_normalize` helpers in the source. -/
def stripAccents (s : String) : String :=
  String.mk (((s.toList.map nfkdChar).flatten).filter (fun c => !pyIsCombining c))

def pyUpper (s : String) : String := String.mk (s.toList.map pyToUpperChar)

def pyLower (s : String) : String := String.mk (s.toList.map pyToLowerChar)

/-- List-level two-sided whitespace strip. -/
def stripL (l : List Char) : List Char :=
  ((l.dropWhile pyIsWs).reverse.dropWhile pyIsWs).reverse

/-- Python `str.strip()`. -/
def pyStrip (s : String) : String := String.mk (stripL s.toList)

def splitWsGo : List Char → List Char → List (List Char)
  | [], acc => if acc.isEmpty then [] else [acc.reverse]
  | c :: cs, acc =>
    if pyIsWs c then
      if acc.isEmpty then splitWsGo cs [] else acc.reverse :: splitWsGo cs []
    else splitWsGo cs (c :: acc)

/-- Python `str.split()` with no argument (split on whitespace runs,
no empty pieces). -/
def pySplit (s : String) : List String :=
  (splitWsGo s.toList []).map String.mk

/-- Python `sep.join(pieces)` at the character-list level. -/
def joinWith (sep : Char) : List (List Char) → List Char
  | [] => []
  | [p] => p
  | p :: ps => p ++ sep :: joinWith sep ps

/-- `" ".join(s.split())`, which is also the net effect of
`re.sub(r"\s+", " ", s).strip()`. -/
def collapseWs (s : String) : String :=
  String.mk (joinWith ' ' (splitWsGo s.toList []))

def splitlinesGo : List Char → List Char → List String
  | [], acc => if acc.isEmpty then [] else [String.mk acc.reverse]
  | '\x0d' :: '\n' :: cs, acc => String.mk acc.reverse :: splitlinesGo cs []
  | '\x0d' :: cs, acc => String.mk acc.reverse :: splitlinesGo cs []
  | '\n' :: cs, acc => String.mk acc.reverse :: splitlinesGo cs []
  | c :: cs, acc => splitlinesGo cs (c :: acc)

/-- Python `str.splitlines()` (for the terminators used in this
development). -/
def pySplitlines (s : String) : List String := splitlinesGo s.toList []

def listPrefixOf [DecidableEq α] : List α → List α → Bool
  | [], _ => true
  | _ :: _, [] => false
  | a :: as, b :: bs => a = b && listPrefixOf as bs

def listInfixOf [DecidableEq α] : List α → List α → Bool
  | n, [] => n.isEmpty
  | n, b :: bs => listPrefixOf n (b :: bs) || listInfixOf n bs

/-- Python `needle in hay` for strings (contiguous substring). -/
def strContains (hay needle : String) : Bool :=
  listInfixOf needle.toList hay.toList

/-- Python `str.isupper()`: at least one cased character and every cased
character upper-case. -/
def pyIsUpper (s : String) : Bool :=
  s.toList.any pyIsCased &&
    s.toList.all (fun c => !pyIsCased c || pyIsUpperChar c)

/-- Python `str.startswith(p)`. -/
def pyStartsWith (s p : String) : Bool := listPrefixOf p.toList s.toList

/-- Python `s.split(sep, 1)[1]` for a one-character separator, i.e. the text
after the first occurrence of `sep` (the callers in the source only use it
on lines known to contain the separator). -/
def pyAfterFirst (sep : Char) : List Char → List Char
  | [] => []
  | c :: cs => if c = sep then cs else pyAfterFirst sep cs

/-- Code-point lexicographic comparison (Python string `<=`). -/
def lexLe : List Char → List Char → Bool
  | [], _ => true
  | _ :: _, [] => false
  | a :: as, b :: bs =>
    if a.val < b.val then true else if b.val < a.val then false else lexLe as bs

/-- Stable insertion used to model Python's stable `sorted`/`list.sort`:
an element is placed after every element it does not strictly precede. -/
def stableInsert (le : α → α → Bool) (x : α) : List α → List α
  | [] => [x]
  | y :: ys => if le y x then y :: stableInsert le x ys else x :: y :: ys

/-- Stable sort (agrees with Python's stable sort for total preorders). -/
def stableSort (le : α → α → Bool) (l : List α) : List α :=
  l.foldl (fun acc x => stableInsert le x acc) []

/-! ## Python float model: exact unnormalized fractions -/

/-- Exact model of the Python floats handled by the source: a fraction
`num / den` with positive denominator, never normalized (so every operation
is kernel-computable). -/
structure PyFloat where
  num : Int
  den : Int
  deriving DecidableEq, Repr

def PyFloat.ofInt (n : Int) : PyFloat := ⟨n, 1⟩

def PyFloat.add (a b : PyFloat) : PyFloat :=
  ⟨a.num * b.den + b.num * a.den, a.den * b.den⟩

/-- Division by a positive integer count (used for averages/medians). -/
def PyFloat.divNat (a : PyFloat) (n : Nat) : PyFloat := ⟨a.num, a.den * n⟩

def PyFloat.le (a b : PyFloat) : Bool := a.num * b.den ≤ b.num * a.den

def PyFloat.lt (a b : PyFloat) : Bool := a.num * b.den < b.num * a.den

/-- `⌊a⌋` for a fraction with positive denominator. -/
def PyFloat.floor (a : PyFloat) : Int := Int.fdiv a.num a.den

/-- Python `round()` (banker's rounding, half to even) followed by `int()`. -/
def pyRound (a : PyFloat) : Int :=
  let f := a.floor
  let r2 := 2 * (a.num - f * a.den)
  if r2 < a.den then f
  else if r2 > a.den then f + 1
  else if f % 2 = 0 then f else f + 1

def PyFloat.sum (l : List PyFloat) : PyFloat :=
  l.foldl PyFloat.add (PyFloat.ofInt 0)

/-! ## Data model

Python dicts with known keys are modelled as structures; a missing key or a
value of the wrong runtime type (the source guards with `isinstance`) is
modelled as `none`. -/

/-- One positioned word of a page (`page["words"]` entries). `text`
defaults to `""` and `x0` to `0` via `dict.get`; `top` and `size` are
absent/non-numeric as `none`. -/
structure Word where
  text : String
  x0 : PyFloat
  top : Option PyFloat
  size : Option PyFloat
  deriving DecidableEq, Repr

/-- One input page. `words` models `page.get("words") or []`; `text`
models `page.get("text", "")`. -/
structure Page where
  page_number : Option Int
  text : String
  words : List Word
  deriving DecidableEq, Repr

/-- An assembled visual line (`{"text": ..., "avg_size": ...}`). -/
structure Line where
  text : String
  avg_size : Option PyFloat
  deriving DecidableEq, Repr

/-- A section record. The segmenter always fills `id`, `title` and `level`;
query/chunker consumers accept records with missing or non-string fields,
modelled as `none`. -/
structure Section where
  id : Option String
  title : Option String
  page_number : Option Int
  level : Option Int
  parent_id : Option String
  deriving DecidableEq, Repr

/-- A content chunk as emitted by `chunk_sections`. -/
structure Chunk where
  id : String
  section_id : String
  section_path : List String
  page_number : Int
  kind : String
  text : String
  line_count : Nat
  deriving DecidableEq, Repr

/-- Parsed keyword-file contents, as returned by `load_keywords_file`. -/
structure KeywordsData where
  main : List String
  sub : List String
  main_regex : List String
  sub_regex : List String
  deriving DecidableEq, Repr

/-- Python truthiness of an optional string (`None` and `""` are falsy). -/
def optStrTruthy : Option String → Bool
  | none => false
  | some s => !s.isEmpty

/-! ## Embedding of `segment/section_parser.py`

Compiled regex patterns (`re.compile(p, re.IGNORECASE)` followed by
`.search(text)`) are modelled as opaque boolean predicates on the searched
text, produced by an abstract compilation function where a claim needs to
relate a pattern string to its behaviour. -/

namespace DocSeg

/-- `_normalize`: NFKD-decompose, drop combining marks, upper-case, strip. -/
def normalize (text : String) : String :=
  pyStrip (pyUpper (stripAccents text))

/-- `_matches_patterns`. -/
def matches_patterns (text : String) (patterns : List (String → Bool)) : Bool :=
  patterns.any (fun p => p text)

/-- `_is_heading_candidate`. -/
def is_heading_candidate (text : String) (median_size : PyFloat)
    (size : Option PyFloat) (keyword_set : List String)
    (keyword_patterns : List (String → Bool)) : Bool :=
  if text.isEmpty then false
  else
    let clean := pyStrip text
    if clean.toList.length < 3 then false
    else
      let normalized := normalize clean
      if keyword_set.contains normalized then true
      else if matches_patterns clean keyword_patterns then true
      else if pyIsUpper clean && clean.toList.length ≤ 120 then true
      else
        match size with
        | some s => PyFloat.le (median_size.add (PyFloat.ofInt 2)) s
        | none => false

/-- `_is_numeric_like` of `section_parser.py` (the strict variant used by
the hierarchy builder). Python's `re.fullmatch(r"[0-9%.,\s]+", text)` is a
nonempty all-characters-in-class test. -/
def numClassChar (c : Char) : Bool :=
  pyIsDigit c || c = '%' || c = '.' || c = ',' || pyIsWs c

def fullmatchNumClass (text : String) : Bool :=
  !text.isEmpty && text.toList.all numClassChar

/-- Python `sum(1 for ch in text if p(ch))`. -/
def pyCountIf (p : Char → Bool) (text : String) : Nat :=
  text.toList.foldl (fun acc c => if p c then acc + 1 else acc) 0

def is_numeric_like (text : String) : Bool :=
  if fullmatchNumClass text then true
  else
    let letters := pyCountIf pyIsAlpha text
    let digits := pyCountIf pyIsDigit text
    decide (digits ≥ 1) && decide (letters ≤ 2)

/-- One insertion into the `line_map` dict of `_group_words_into_lines`
(`setdefault` keeps first-insertion key order, appends to the bucket). -/
def lineMapInsert (key : Int) (w : Word) :
    List (Int × List Word) → List (Int × List Word)
  | [] => [(key, [w])]
  | (k, ws) :: rest =>
    if k = key then (k, ws ++ [w]) :: rest else (k, ws) :: lineMapInsert key w rest

/-- `_group_words_into_lines`. -/
def group_words_into_lines (words : List Word) : List Line :=
  if words.isEmpty then []
  else
    let line_map := words.foldl
      (fun m w =>
        match w.top with
        | none => m
        | some t => lineMapInsert (pyRound t) w m)
      []
    let sorted_items := stableSort (fun a b => a.1 ≤ b.1) line_map
    sorted_items.map (fun item =>
      let line_words := stableSort (fun a b => PyFloat.le a.x0 b.x0) item.2
      let text := pyStrip
        (String.mk (joinWith ' ' (line_words.map (fun w => (pyStrip w.text).toList))))
      let sizes := line_words.filterMap (fun w => w.size)
      let avg_size :=
        if sizes.isEmpty then none
        else some ((PyFloat.sum sizes).divNat sizes.length)
      { text := text, avg_size := avg_size })

/-- `_median_font_size`. -/
def median_font_size (words : List Word) : PyFloat :=
  let sizes := words.filterMap (fun w => w.size)
  if sizes.isEmpty then PyFloat.ofInt 0
  else
    let sorted := stableSort PyFloat.le sizes
    let mid := sorted.length / 2
    if sorted.length % 2 = 1 then sorted.getD mid (PyFloat.ofInt 0)
    else
      ((sorted.getD (mid - 1) (PyFloat.ofInt 0)).add
        (sorted.getD mid (PyFloat.ofInt 0))).divNat 2

/-- The shared per-page line computation of
`segment_sections_with_keywords` and `discover_heading_candidates`:
grouped word lines, falling back to the page's raw text split into
stripped lines when no word lines exist. -/
def pageLines (page : Page) : List Line :=
  let lines := group_words_into_lines page.words
  if lines.isEmpty then
    (pySplitlines page.text).map (fun l => { text := pyStrip l, avg_size := none })
  else lines

/-- `f"sec_{n:03d}"`. -/
def secName (n : Nat) : String :=
  let digits := Nat.repr n
  let pad := String.mk (List.replicate (3 - digits.toList.length) '0')
  "sec_" ++ pad ++ digits

/-- Mutable state of the hierarchy pass inside
`segment_sections_with_keywords`. -/
structure SegState where
  sections : List Section
  section_id : Nat
  current_parent_id : Option String
  current_subsection_id : Option String
  deriving Repr

/-- The body of the per-line loop of `segment_sections_with_keywords`. -/
def segLineStep (keyword_set : List String)
    (keyword_patterns : List (String → Bool))
    (subsection_keyword_set : List String)
    (subsection_regex_patterns : List (String → Bool))
    (median_size : PyFloat) (page_number : Option Int)
    (st : SegState) (line : Line) : SegState :=
  let text := collapseWs line.text
  if text.isEmpty then st
  else if is_heading_candidate text median_size line.avg_size
      keyword_set keyword_patterns then
    let normalized := normalize text
    let numeric_like := is_numeric_like text
    let (parent_id, level, cp, cs) :=
      if numeric_like then
        if optStrTruthy st.current_subsection_id then
          (st.current_subsection_id, 3,
            st.current_parent_id, st.current_subsection_id)
        else if optStrTruthy st.current_parent_id then
          (st.current_parent_id, 2,
            st.current_parent_id, st.current_subsection_id)
        else (none, 1, st.current_parent_id, st.current_subsection_id)
      else if subsection_keyword_set.contains normalized ||
          matches_patterns text subsection_regex_patterns then
        (st.current_parent_id, 2,
          st.current_parent_id, some (secName (st.section_id + 1)))
      else
        (none, 1, some (secName (st.section_id + 1)), none)
    let new_id := st.section_id + 1
    { sections := st.sections ++
        [{ id := some (secName new_id), title := some text,
           page_number := page_number, level := some level,
           parent_id := parent_id }],
      section_id := new_id,
      current_parent_id := cp,
      current_subsection_id := cs }
  else st

/-- The per-page loop body: reset the two state variables, recompute the
page's median and lines, then fold over the lines. -/
def segPageStep (keyword_set : List String)
    (keyword_patterns : List (String → Bool))
    (subsection_keyword_set : List String)
    (subsection_regex_patterns : List (String → Bool))
    (st : SegState) (page : Page) : SegState :=
  let median_size := median_font_size page.words
  let lines := pageLines page
  lines.foldl
    (segLineStep keyword_set keyword_patterns subsection_keyword_set
      subsection_regex_patterns median_size page.page_number)
    { st with current_parent_id := none, current_subsection_id := none }

/-- `segment_sections_with_keywords` (returning the `"sections"` list; the
`"section_count"` entry is its length). The normalized keyword sets are
kept as lists, membership standing for Python set membership; the compiled
regex lists are taken as already-compiled search predicates. -/
def segment_sections_with_keywords (pages : List Page)
    (main_keywords : List String) (subsection_keywords : List String)
    (main_regex : List (String → Bool))
    (subsection_regex : List (String → Bool)) : List Section :=
  let main_keyword_set := main_keywords.map normalize
  let subsection_keyword_set := subsection_keywords.map normalize
  let keyword_set := main_keyword_set ++ subsection_keyword_set
  let keyword_patterns := main_regex ++ subsection_regex
  (pages.foldl
    (segPageStep keyword_set keyword_patterns subsection_keyword_set
      subsection_regex)
    { sections := [], section_id := 0,
      current_parent_id := none, current_subsection_id := none }).sections

end DocSeg

namespace DocSeg

/-- `discover_heading_candidates`. -/
def discover_heading_candidates (pages : List Page)
    (keyword_set : List String)
    (keyword_patterns : List (String → Bool)) : List String :=
  pages.foldl
    (fun cands page =>
      let median_size := median_font_size page.words
      let lines := pageLines page
      lines.foldl
        (fun cands line =>
          let text := collapseWs line.text
          if text.isEmpty || is_numeric_like text then cands
          else if is_heading_candidate text median_size line.avg_size
              keyword_set keyword_patterns then
            cands ++ [text]
          else cands)
        cands)
    []

/-- The per-line classification of `load_keywords_file`; the file is
modelled as its list of (already newline-split) lines. -/
def loadKeywordsStep (data : KeywordsData) (raw_line : String) : KeywordsData :=
  let line := pyStrip raw_line
  if line.isEmpty || pyStartsWith line "#" then data
  else
    let lower := pyLower line
    let value := pyStrip (String.mk (pyAfterFirst ':' line.toList))
    if pyStartsWith lower "main_regex:" || pyStartsWith lower "main-regex:" then
      if value.isEmpty then data
      else { data with main_regex := data.main_regex ++ [value] }
    else if pyStartsWith lower "sub_regex:" || pyStartsWith lower "sub-regex:" then
      if value.isEmpty then data
      else { data with sub_regex := data.sub_regex ++ [value] }
    else if pyStartsWith lower "regex:" then
      if value.isEmpty then data
      else { data with main_regex := data.main_regex ++ [value] }
    else if pyStartsWith lower "sub:" || pyStartsWith lower "subsection:" then
      if value.isEmpty then data
      else { data with sub := data.sub ++ [value] }
    else if pyStartsWith lower "main:" then
      if value.isEmpty then data
      else { data with main := data.main ++ [value] }
    else { data with main := data.main ++ [line] }

/-- `load_keywords_file`, over the file's lines. -/
def load_keywords_file (file_lines : List String) : KeywordsData :=
  file_lines.foldl loadKeywordsStep ⟨[], [], [], []⟩

/-- The filter loop of `update_keywords_file` collecting `new_main`:
keep candidates whose normalized form is in neither existing set,
extending the first set as it goes. -/
def newMainLoop : List String → List String → List String → List String →
    List String
  | [], _, _, acc => acc
  | cand :: rest, main_norm, sub_norm, acc =>
    let normalized := normalize cand
    if !main_norm.contains normalized && !sub_norm.contains normalized then
      newMainLoop rest (main_norm ++ [normalized]) sub_norm (acc ++ [cand])
    else newMainLoop rest main_norm sub_norm acc

/-- The analogous loop collecting `new_sub`: checked against the
subsection set only. -/
def newSubLoop : List String → List String → List String → List String
  | [], _, acc => acc
  | cand :: rest, sub_norm, acc =>
    let normalized := normalize cand
    if !sub_norm.contains normalized then
      newSubLoop rest (sub_norm ++ [normalized]) (acc ++ [cand])
    else newSubLoop rest sub_norm acc

/-- `update_keywords_file`, modelled on the file's line list: it returns
the file contents after the (possible) append of the auto-discovered
block. The source then reloads and returns the parsed lists; that result
is `load_keywords_file` of this value. -/
def update_keywords_file (file_lines : List String)
    (main_candidates : List String)
    (subsection_candidates : Option (List String)) : List String :=
  let existing := load_keywords_file file_lines
  let existing_main_norm := existing.main.map normalize
  let existing_sub_norm := existing.sub.map normalize
  let new_main := newMainLoop main_candidates existing_main_norm
    existing_sub_norm []
  let new_sub :=
    match subsection_candidates with
    | none => []
    | some cands =>
      if cands.isEmpty then [] else newSubLoop cands existing_sub_norm []
  if new_main.isEmpty && new_sub.isEmpty then file_lines
  else
    file_lines ++ [""] ++ ["# Auto-discovered keywords"] ++
      (stableSort (fun a b => lexLe (pyLower a).toList (pyLower b).toList)
        new_main).map (fun v => "main: " ++ v) ++
      (stableSort (fun a b => lexLe (pyLower a).toList (pyLower b).toList)
        new_sub).map (fun v => "sub: " ++ v)

end DocSeg

/-! ## Embedding of `chunk/chunker.py` -/

namespace DocChunk

/-- `_normalize_text` of the chunker: NFKD, drop combining marks,
upper-case, collapse whitespace. -/
def normalize_text (value : String) : String :=
  collapseWs (pyUpper (stripAccents value))

/-- `_line_matches_title`. -/
def line_matches_title (line title : String) : Bool :=
  let normalized_line := normalize_text line
  let normalized_title := normalize_text title
  if normalized_line.isEmpty || normalized_title.isEmpty then false
  else if strContains normalized_line normalized_title then true
  else
    let tokens := (pySplit normalized_title).filter
      (fun token => token.toList.length > 2)
    if tokens.isEmpty then false
    else tokens.all (fun token => strContains normalized_line token)

/-- `_is_numeric_like` of the chunker (the loose base predicate). -/
def is_numeric_like (text : String) : Bool :=
  if DocSeg.fullmatchNumClass text then true
  else
    let letters := DocSeg.pyCountIf pyIsAlpha text
    let digits := DocSeg.pyCountIf pyIsDigit text
    decide (digits ≥ 2) && decide (letters ≤ max 2 (digits / 3))

/-- `_is_table_line`. `len(re.findall(r"\d", text))` is the digit count and
`text.count("%") >= 1` is a containment test. -/
def is_table_line (text : String) : Bool :=
  if is_numeric_like text then true
  else
    let numbers := DocSeg.pyCountIf pyIsDigit text
    if numbers ≥ 6 then true
    else if text.toList.contains '%' && numbers ≥ 2 then true
    else false

/-- `_build_section_index` / `build_section_index`: a dict comprehension
keyed by id keeps the **last** record for a duplicated id; lookup is
modelled directly. -/
def section_index_get (sections : List Section) (sid : String) :
    Option Section :=
  sections.reverse.find? (fun s => s.id = some sid)

/-- `_build_section_path`, with explicit fuel for the source's unbounded
`while current` walk (the fuel only truncates the ancestor path on cyclic
inputs; on acyclic inputs `sections.length` fuel is never exhausted). -/
def build_section_path_go (sections : List Section) :
    Nat → Section → List String → List String
  | 0, _, path => path
  | fuel + 1, current, path =>
    let path1 :=
      match current.title with
      | some t => t :: path
      | none => path
    match current.parent_id with
    | none => path1
    | some pid =>
      match section_index_get sections pid with
      | none => path1
      | some parent => build_section_path_go sections fuel parent path1

def build_section_path (section_id : String) (sections : List Section) :
    List String :=
  match section_index_get sections section_id with
  | none => []
  | some s => build_section_path_go sections (sections.length + 1) s []

/-- `_collect_page_sections` restricted to one page number: the ordered
subsequence of sections on that page (records without an `int`
page_number are skipped). -/
def sections_on_page (sections : List Section) (page_number : Int) :
    List Section :=
  sections.filter (fun s => s.page_number = some page_number)

/-- `_flush_chunk`: append one chunk unless the buffered line list is
empty. -/
def flush_chunk (chunks : List Chunk) (chunk_id : Nat) (section_id : String)
    (sections : List Section) (page_number : Int) (kind : String)
    (lines : List String) : List Chunk :=
  if lines.isEmpty then chunks
  else
    chunks ++
      [{ id := "chunk_" ++
            (let digits := Nat.repr chunk_id
             String.mk (List.replicate (3 - digits.toList.length) '0') ++ digits),
         section_id := section_id,
         section_path := build_section_path section_id sections,
         page_number := page_number,
         kind := kind,
         text := String.mk (joinWith '\n' (lines.map String.toList)),
         line_count := lines.length }]

/-- Mutable state of `chunk_sections`; `current_section_id` persists
across pages, the rest is reinitialized per page. -/
structure ChunkState where
  chunks : List Chunk
  chunk_id : Nat
  current_section_id : Option String
  deriving Repr

/-- Per-page state of the line walk. -/
structure PageWalk where
  st : ChunkState
  cursor : Nat
  buffer : List String
  current_kind : String
  deriving Repr

/-- The title test of the per-line loop: the next expected section on the
page exists, has a string title, and that title matches the line. -/
def cursor_title_matches (on_page : List Section) (cursor : Nat)
    (line : String) : Bool :=
  match on_page.get? cursor with
  | none => false
  | some s =>
    match s.title with
    | some title => line_matches_title line title
    | none => false

/-- The body of the per-line loop of `chunk_sections`. -/
def chunkLineStep (sections : List Section) (on_page : List Section)
    (page_number : Int) (w : PageWalk) (line : String) : PageWalk :=
  if cursor_title_matches on_page w.cursor line then
    let st1 :=
      match w.st.current_section_id with
      | some sid =>
        if sid.isEmpty then w.st
        else
          let cid := w.st.chunk_id + 1
          { w.st with
            chunk_id := cid,
            chunks := flush_chunk w.st.chunks cid sid sections page_number
              w.current_kind w.buffer }
      | none => w.st
    { st := { st1 with
        current_section_id :=
          match on_page.get? w.cursor with
          | some s => s.id
          | none => none },
      cursor := w.cursor + 1,
      buffer := [],
      current_kind := "paragraph" }
  else if !optStrTruthy w.st.current_section_id then w
  else
    let kind := if is_table_line line then "table" else "paragraph"
    if kind ≠ w.current_kind && !w.buffer.isEmpty then
      match w.st.current_section_id with
      | some sid =>
        let cid := w.st.chunk_id + 1
        { st := { w.st with
            chunk_id := cid,
            chunks := flush_chunk w.st.chunks cid sid sections page_number
              w.current_kind w.buffer },
          cursor := w.cursor,
          buffer := [line],
          current_kind := kind }
      | none => w
    else
      { w with buffer := w.buffer ++ [line], current_kind := kind }

/-- The per-page loop body of `chunk_sections`. -/
def chunkPageStep (sections : List Section) (st : ChunkState) (page : Page) :
    ChunkState :=
  match page.page_number with
  | none => st
  | some page_number =>
    let lines := (pySplitlines page.text).map pyStrip |>.filter
      (fun l => !l.isEmpty)
    if lines.isEmpty then st
    else
      let on_page := sections_on_page sections page_number
      let w := lines.foldl (chunkLineStep sections on_page page_number)
        { st := st, cursor := 0, buffer := [], current_kind := "paragraph" }
      match w.st.current_section_id with
      | some sid =>
        if sid.isEmpty || w.buffer.isEmpty then w.st
        else
          let cid := w.st.chunk_id + 1
          { w.st with
            chunk_id := cid,
            chunks := flush_chunk w.st.chunks cid sid sections page_number
              w.current_kind w.buffer }
      | none => w.st

/-- `chunk_sections` (returning the `"chunks"` list). -/
def chunk_sections (pages : List Page) (sections : List Section) :
    List Chunk :=
  (pages.foldl (chunkPageStep sections)
    { chunks := [], chunk_id := 0, current_section_id := none }).chunks

end DocChunk

/-! ## Embedding of `query/sections_query.py` -/

namespace DocQuery

/-- `_normalize_text` of the query module: lower-case and collapse
whitespace — it does **not** strip accents. -/
def normalize_text (value : String) : String :=
  collapseWs (pyLower value)

/-- `_strip_accents`. -/
def strip_accents (value : String) : String := stripAccents value

/-- `_normalize_for_match` (used by the data-excerpt helpers, not by
`find_sections_by_title`). -/
def normalize_for_match (value : String) : String :=
  normalize_text (strip_accents value)

/-- `find_sections_by_title`: the `for` loop accumulating matches. -/
def find_sections_by_title (sections : List Section) (query : String)
    (exact : Bool) : List Section :=
  let normalized_query := normalize_text query
  sections.foldl
    (fun acc s =>
      match s.title with
      | none => acc
      | some title =>
        let normalized_title := normalize_text title
        if exact && normalized_title = normalized_query then acc ++ [s]
        else if !exact && strContains normalized_title normalized_query then
          acc ++ [s]
        else acc)
    []

/-- The `while current` loop of `get_parent_chain`, with explicit fuel.
A `none` result means the loop was still running after `fuel` iterations:
the source loop carries no visited set or depth bound, so `none` for every
fuel value is non-termination of the source. -/
def get_parent_chain_go (sections : List Section) :
    Nat → Section → List Section → Option (List Section)
  | 0, _, _ => none
  | fuel + 1, current, chain =>
    match current.parent_id with
    | none => some chain
    | some pid =>
      match DocChunk.section_index_get sections pid with
      | none => some chain
      | some parent =>
        get_parent_chain_go sections fuel parent (parent :: chain)

/-- `get_parent_chain` over the index built from `sections`, with fuel for
the source's unbounded loop. -/
def get_parent_chain (fuel : Nat) (section_id : String)
    (sections : List Section) : Option (List Section) :=
  match DocChunk.section_index_get sections section_id with
  | none => some []
  | some s => get_parent_chain_go sections fuel s []

end DocQuery

/-! ## Calling convention of `pipeline.run` (for the keyword-update step)

Python raises `TypeError` at a call site that passes a keyword argument
whose name is not a parameter of the callee. The binding rule is modelled
directly; the segment+update branch of `run` is modelled as the sequence
of effects it performs up to that call. -/

namespace DocPipe

/-- Positional-parameter names of `update_keywords_file` in
`section_parser.py`: `(path, main_candidates, subsection_candidates=None)`. -/
def updateKeywordsFileParams : List String :=
  ["path", "main_candidates", "subsection_candidates"]

/-- Keyword-argument names passed by `pipeline.run` at the
`update_keywords_file(...)` call (the first argument, `keywords_file`, is
positional). -/
def runUpdateCallKwargNames : List String :=
  ["main_candidates", "auto_classify_subsections"]

/-- CPython binding of keyword arguments: every keyword name must be a
declared parameter, else the call raises
`TypeError: ... got an unexpected keyword argument ...`. -/
def kwargsBind (params : List String) (kwargs : List String) : Bool :=
  kwargs.all (fun k => params.contains k)

/-- The segment branch of `run` with `update_keywords` enabled and an
existing keywords file, up to and including the `update_keywords_file`
call: discovery runs with default (empty) keyword configuration, then the
call itself is bound. `Except.error` models the `TypeError` propagating
out of `run`; the keyword file is returned unchanged alongside the error
because the failed call never executes the callee's body. -/
def runSegmentUpdateStep (pages : List Page) (keywords_file : List String) :
    Except (String × List String) (List String) :=
  let _candidates := DocSeg.discover_heading_candidates pages [] []
  if kwargsBind updateKeywordsFileParams runUpdateCallKwargNames then
    Except.ok (DocSeg.update_keywords_file keywords_file _candidates none)
  else
    Except.error ("TypeError: update_keywords_file() got an unexpected " ++
      "keyword argument", keywords_file)

end DocPipe

/-! ## Specification-side definitions

These are written from the wording of the specification/claims, to be
compared against the embeddings above. -/

namespace SpecSide

/-- "consists solely of digits/`%`/`.`/`,`/whitespace". -/
def solelyNumericChars (text : String) : Bool :=
  !text.isEmpty && text.toList.all
    (fun c => pyIsDigit c || c = '%' || c = '.' || c = ',' || pyIsWs c)

/-- C3's strict numeric-like formula as claimed: solely numeric characters,
OR digit count ≥ 2 and letter count ≤ max(2, digits/3). -/
def strictNumericLikeClaim (text : String) : Bool :=
  solelyNumericChars text ||
    (decide (2 ≤ text.toList.countP pyIsDigit) &&
      decide (text.toList.countP pyIsAlpha ≤
        max 2 (text.toList.countP pyIsDigit / 3)))

/-- C3 amended: solely numeric characters, OR digit count ≥ 1 and letter
count ≤ 2 (what the hierarchy builder's predicate actually computes). -/
def strictNumericLikeAmended (text : String) : Bool :=
  solelyNumericChars text ||
    (decide (1 ≤ text.toList.countP pyIsDigit) &&
      decide (text.toList.countP pyIsAlpha ≤ 2))

/-- C4's table-line formula as claimed: solely numeric characters, OR ≥ 6
digits, OR at least one `%` together with ≥ 2 digits. -/
def tableLineClaim (text : String) : Bool :=
  solelyNumericChars text ||
    decide (6 ≤ text.toList.countP pyIsDigit) ||
    (text.toList.contains '%' &&
      decide (2 ≤ text.toList.countP pyIsDigit))

/-- C4 amended: the claim's three arms plus the loose numeric-like arm the
chunker's base predicate contributes (digit count ≥ 2 with letter count
≤ max(2, digits/3)). -/
def tableLineAmended (text : String) : Bool :=
  solelyNumericChars text ||
    (decide (2 ≤ text.toList.countP pyIsDigit) &&
      decide (text.toList.countP pyIsAlpha ≤
        max 2 (text.toList.countP pyIsDigit / 3))) ||
    decide (6 ≤ text.toList.countP pyIsDigit) ||
    (text.toList.contains '%' &&
      decide (2 ≤ text.toList.countP pyIsDigit))

/-- First-match-wins evaluation of an ordered rule list: `some b` decides
`b`, `none` defers; no decision defaults to "not a heading". -/
def firstDecision : List (Option Bool) → Bool
  | [] => false
  | some b :: _ => b
  | none :: rest => firstDecision rest

/-- C5's `isHeading`, rule by rule, in the claimed order. -/
def isHeadingRules (text : String) (medianSize : PyFloat)
    (avgSize : Option PyFloat) (keywordSet : List String)
    (patterns : List (String → Bool)) : Bool :=
  let clean := pyStrip text
  firstDecision
    [ if clean.toList.length < 3 then some false else none,
      if keywordSet.contains (DocSeg.normalize clean) then some true else none,
      if DocSeg.matches_patterns clean patterns then some true else none,
      if pyIsUpper clean && clean.toList.length ≤ 120 then some true else none,
      match avgSize with
      | some s =>
        if PyFloat.le (medianSize.add (PyFloat.ofInt 2)) s then some true
        else none
      | none => none ]

/-- C6's claimed discovery: rules 2–4 only (keyword, regex, all-caps),
excluding the font-size rule. -/
def isHeadingRules234 (text : String) (keywordSet : List String)
    (patterns : List (String → Bool)) : Bool :=
  let clean := pyStrip text
  firstDecision
    [ if clean.toList.length < 3 then some false else none,
      if keywordSet.contains (DocSeg.normalize clean) then some true else none,
      if DocSeg.matches_patterns clean patterns then some true else none,
      if pyIsUpper clean && clean.toList.length ≤ 120 then some true
        else none ]

/-- C6 as claimed: the non-numeric-like assembled lines accepted by
classifier rules 2–4, in page/visual order. -/
def discoverClaim (pages : List Page) (keyword_set : List String)
    (keyword_patterns : List (String → Bool)) : List String :=
  (pages.map (fun page =>
    ((DocSeg.pageLines page).map (fun l => collapseWs l.text)).filterMap
      (fun t =>
        if !t.isEmpty && !DocSeg.is_numeric_like t &&
            isHeadingRules234 t keyword_set keyword_patterns then
          some t
        else none))).flatten

/-- C6 amended: discovery returns exactly the non-empty,
non-strict-numeric-like assembled lines accepted by the full classifier
(rules 2–5, the font-size rule included). -/
def discoverAmended (pages : List Page) (keyword_set : List String)
    (keyword_patterns : List (String → Bool)) : List String :=
  (pages.map (fun page =>
    ((DocSeg.pageLines page).map (fun l => (collapseWs l.text, l.avg_size))).filterMap
      (fun ta =>
        if !ta.1.isEmpty && !DocSeg.is_numeric_like ta.1 &&
            isHeadingRules ta.1 (DocSeg.median_font_size page.words) ta.2
              keyword_set keyword_patterns then
          some ta.1
        else none))).flatten

/-- C9 amended: title search as an order-preserving filter under
lower-casing and whitespace collapse (no accent stripping). -/
def findByTitleFilter (sections : List Section) (query : String)
    (exact : Bool) : List Section :=
  sections.filter (fun s =>
    match s.title with
    | none => false
    | some title =>
      if exact then DocQuery.normalize_text title = DocQuery.normalize_text query
      else strContains (DocQuery.normalize_text title)
        (DocQuery.normalize_text query))

/-- C2's hierarchy-assignment state machine, written from the claim's
transition rules over the stream of classified headings of one page. The
accumulator carries the already-created sections, the global id counter,
and the two per-page state variables. -/
structure HierState where
  sections : List Section
  counter : Nat
  currentMainId : Option String
  currentSubId : Option String

/-- One classified heading: its (whitespace-collapsed) text processed by
the three claimed rules, in order. -/
def hierAssign (subsection_keyword_set : List String)
    (subsection_regex_patterns : List (String → Bool))
    (page_number : Option Int) (st : HierState) (text : String) : HierState :=
  let newId := DocSeg.secName (st.counter + 1)
  if DocSeg.is_numeric_like text then
    match st.currentSubId with
    | some sub =>
      { st with
        sections := st.sections ++
          [{ id := some newId, title := some text, page_number := page_number,
             level := some 3, parent_id := some sub }],
        counter := st.counter + 1 }
    | none =>
      match st.currentMainId with
      | some main =>
        { st with
          sections := st.sections ++
            [{ id := some newId, title := some text,
               page_number := page_number, level := some 2,
               parent_id := some main }],
          counter := st.counter + 1 }
      | none =>
        { st with
          sections := st.sections ++
            [{ id := some newId, title := some text,
               page_number := page_number, level := some 1,
               parent_id := none }],
          counter := st.counter + 1 }
  else if subsection_keyword_set.contains (DocSeg.normalize text) ||
      DocSeg.matches_patterns text subsection_regex_patterns then
    { sections := st.sections ++
        [{ id := some newId, title := some text, page_number := page_number,
           level := some 2, parent_id := st.currentMainId }],
      counter := st.counter + 1,
      currentMainId := st.currentMainId,
      currentSubId := some newId }
  else
    { sections := st.sections ++
        [{ id := some newId, title := some text, page_number := page_number,
           level := some 1, parent_id := none }],
      counter := st.counter + 1,
      currentMainId := some newId,
      currentSubId := none }

/-- The classified headings of one page, in visual order: collapsed line
texts that are non-empty and classified as headings. -/
def classifiedHeadings (page : Page) (keyword_set : List String)
    (keyword_patterns : List (String → Bool)) : List String :=
  ((DocSeg.pageLines page).map (fun l => (collapseWs l.text, l.avg_size))).filterMap
    (fun ta =>
      if !ta.1.isEmpty &&
          DocSeg.is_heading_candidate ta.1 (DocSeg.median_font_size page.words)
            ta.2 keyword_set keyword_patterns then
        some ta.1
      else none)

/-- C2's whole-document assignment: pages in order, the two state
variables reset at the start of each page, one global id counter. -/
def segmentClaim (pages : List Page) (main_keywords : List String)
    (subsection_keywords : List String)
    (main_regex : List (String → Bool))
    (subsection_regex : List (String → Bool)) : List Section :=
  let keyword_set := (main_keywords ++ subsection_keywords).map DocSeg.normalize
  let keyword_patterns := main_regex ++ subsection_regex
  (pages.foldl
    (fun st page =>
      (classifiedHeadings page keyword_set keyword_patterns).foldl
        (hierAssign (subsection_keywords.map DocSeg.normalize)
          subsection_regex page.page_number)
        { st with currentMainId := none, currentSubId := none })
    { sections := [], counter := 0, currentMainId := none,
      currentSubId := none }).sections

end SpecSide

/-! ## Helper lemmas -/

lemma foldl_count (p : Char → Bool) :
    ∀ (l : List Char) (n : Nat),
      l.foldl (fun acc c => if p c then acc + 1 else acc) n = n + l.countP p := by
  intro l
  induction l with
  | nil => intro n; simp
  | cons a l ih =>
    intro n
    simp only [List.foldl_cons, List.countP_cons, ih]
    by_cases h : p a = true
    · simp [h]
      omega
    · simp [h]

lemma pyCountIf_eq_countP (p : Char → Bool) (s : String) :
    DocSeg.pyCountIf p s = s.toList.countP p := by
  unfold DocSeg.pyCountIf
  rw [foldl_count]
  omega

lemma fullmatch_eq_solely (text : String) :
    DocSeg.fullmatchNumClass text = SpecSide.solelyNumericChars text := rfl

/-! ## Claims C3 and C4: the two numeric-like predicates -/

/-- C3 (counterexample): the claim's formula (digit count ≥ 2, letter count
≤ max(2, digits/3)) disagrees with the hierarchy builder's predicate at the
input "x1": the code accepts it (one digit, one letter), the claimed
formula rejects it. -/
theorem C3_strict_numeric_counterexample :
    DocSeg.is_numeric_like "x1" ≠ SpecSide.strictNumericLikeClaim "x1" := by
  decide

/-- C3 (amended): the hierarchy builder's strict numeric-like predicate
returns true iff the text consists solely of digits/%/./,/whitespace, OR
its digit count is ≥ 1 and its letter count is ≤ 2. -/
theorem C3_strict_numeric_characterization :
    ∀ text, DocSeg.is_numeric_like text = SpecSide.strictNumericLikeAmended text := by
  intro text
  unfold DocSeg.is_numeric_like SpecSide.strictNumericLikeAmended
  rw [fullmatch_eq_solely, pyCountIf_eq_countP, pyCountIf_eq_countP]
  by_cases h : SpecSide.solelyNumericChars text = true <;>
    simp [h, Bool.and_comm]

/-- C4 (counterexample): the claim's three arms (solely numeric characters,
≥ 6 digits, % with ≥ 2 digits) disagree with the chunker's table-line
predicate at "12 ab": the code accepts it through the loose numeric-like
arm (2 digits, 2 letters ≤ max(2, 2/3)), the claimed formula rejects it. -/
theorem C4_table_line_counterexample :
    DocChunk.is_table_line "12 ab" ≠ SpecSide.tableLineClaim "12 ab" := by
  decide

/-- C4 (amended): the chunker's table-line predicate returns true iff the
text consists solely of digits/%/./,/whitespace, OR its digit count is ≥ 2
with letter count ≤ max(2, digits/3), OR it contains ≥ 6 digits, OR it
contains a % together with ≥ 2 digits. -/
theorem C4_table_line_characterization :
    ∀ text, DocChunk.is_table_line text = SpecSide.tableLineAmended text := by
  intro text
  unfold DocChunk.is_table_line DocChunk.is_numeric_like SpecSide.tableLineAmended
  rw [fullmatch_eq_solely, pyCountIf_eq_countP, pyCountIf_eq_countP]
  by_cases h1 : SpecSide.solelyNumericChars text = true <;>
    simp [h1, Bool.or_assoc]

/-! ## Claim C5: the heading classifier -/

lemma pyStrip_empty : pyStrip "" = "" := rfl

/-- The heading classifier equals the spec's ordered rule list (shared
helper). -/
lemma heading_candidate_eq_rules (text : String) (median_size : PyFloat)
    (size : Option PyFloat) (keyword_set : List String)
    (keyword_patterns : List (String → Bool)) :
    DocSeg.is_heading_candidate text median_size size keyword_set
        keyword_patterns =
      SpecSide.isHeadingRules text median_size size keyword_set
        keyword_patterns := by
  unfold DocSeg.is_heading_candidate SpecSide.isHeadingRules
  by_cases he : text.isEmpty
  · rw [String.isEmpty_iff] at he
    subst he
    simp [SpecSide.firstDecision, pyStrip_empty]
  · simp only [he, Bool.false_eq_true, if_false]
    by_cases h1 : (pyStrip text).length < 3
    · simp [h1, SpecSide.firstDecision]
    · by_cases h2 : DocSeg.normalize (pyStrip text) ∈ keyword_set
      · simp [h1, h2, SpecSide.firstDecision]
      · by_cases h3 : DocSeg.matches_patterns (pyStrip text) keyword_patterns = true
        · simp [h1, h2, h3, SpecSide.firstDecision]
        · by_cases h4a : pyIsUpper (pyStrip text) = true
          · by_cases h4b : (pyStrip text).length ≤ 120
            · simp [h1, h2, h3, h4a, h4b, SpecSide.firstDecision]
            · cases size with
              | none => simp [h1, h2, h3, h4a, h4b, SpecSide.firstDecision]
              | some sz =>
                by_cases h5 : PyFloat.le (median_size.add (PyFloat.ofInt 2)) sz = true <;>
                  simp [h1, h2, h3, h4a, h4b, h5, SpecSide.firstDecision]
          · cases size with
            | none => simp [h1, h2, h3, h4a, SpecSide.firstDecision]
            | some sz =>
              by_cases h5 : PyFloat.le (median_size.add (PyFloat.ofInt 2)) sz = true <;>
                simp [h1, h2, h3, h4a, h5, SpecSide.firstDecision]

/-- C5: the heading classifier agrees with the claimed ordered rule list
(first match wins: length reject, exact keyword, regex, all-caps,
font-size, default not-a-heading), and the three cited examples evaluate
as claimed. -/
theorem C5_heading_classifier :
    (∀ text median_size size keyword_set keyword_patterns,
      DocSeg.is_heading_candidate text median_size size keyword_set
          keyword_patterns =
        SpecSide.isHeadingRules text median_size size keyword_set
          keyword_patterns) ∧
    DocSeg.is_heading_candidate "QUARTERLY REPORT" (PyFloat.ofInt 10) none
      [] [] = true ∧
    DocSeg.is_heading_candidate "some normal sentence." (PyFloat.ofInt 10)
      (some (PyFloat.ofInt 9)) [] [] = false ∧
    DocSeg.is_heading_candidate "Overview" (PyFloat.ofInt 10)
      (some (PyFloat.ofInt 14)) [] [] = true :=
  ⟨fun text m sz ks pats => heading_candidate_eq_rules text m sz ks pats,
    by decide, by decide, by decide⟩

/-! ## Claim C9: title search -/

lemma find_foldl_filter (query : String) (exact : Bool) :
    ∀ (l : List Section) (acc : List Section),
      l.foldl
        (fun acc s =>
          match s.title with
          | none => acc
          | some title =>
            let normalized_title := DocQuery.normalize_text title
            if exact && normalized_title = DocQuery.normalize_text query then
              acc ++ [s]
            else if !exact && strContains normalized_title
                (DocQuery.normalize_text query) then
              acc ++ [s]
            else acc)
        acc =
      acc ++ SpecSide.findByTitleFilter l query exact := by
  intro l
  induction l with
  | nil => intro acc; simp [SpecSide.findByTitleFilter]
  | cons s rest ih =>
    intro acc
    simp only [List.foldl_cons, SpecSide.findByTitleFilter, List.filter_cons]
    cases ht : s.title with
    | none =>
      simpa [ht, SpecSide.findByTitleFilter] using ih acc
    | some title =>
      cases exact with
      | true =>
        by_cases h : DocQuery.normalize_text title = DocQuery.normalize_text query
        · simpa [ht, h, SpecSide.findByTitleFilter] using ih (acc ++ [s])
        · simpa [ht, h, SpecSide.findByTitleFilter] using ih acc
      | false =>
        by_cases h : strContains (DocQuery.normalize_text title)
            (DocQuery.normalize_text query) = true
        · simpa [ht, h, SpecSide.findByTitleFilter] using ih (acc ++ [s])
        · simpa [ht, h, SpecSide.findByTitleFilter] using ih acc

/-- C9 (counterexample): title matching is **not** accent-insensitive: a
section titled "RESUMÉN" is not found by the query "RESUMEN", neither in
exact nor in substring mode (the claim says both match). -/
theorem C9_accent_counterexample :
    DocQuery.find_sections_by_title
        [{ id := some "sec_001", title := some "RESUMÉN",
           page_number := some 1, level := some 1, parent_id := none }]
        "RESUMEN" true = [] ∧
    DocQuery.find_sections_by_title
        [{ id := some "sec_001", title := some "RESUMÉN",
           page_number := some 1, level := some 1, parent_id := none }]
        "RESUMEN" false = [] := by
  constructor <;> decide

/-- C9 (amended): `find_sections_by_title` compares titles insensitively to
case and whitespace runs (lower-casing and whitespace collapse) but
**sensitively to accents**, and returns the matching sections as an
order-preserving filter of the input list (normalized equality in exact
mode, normalized substring containment otherwise). -/
theorem C9_find_by_title_characterization :
    ∀ sections query exact,
      DocQuery.find_sections_by_title sections query exact =
        SpecSide.findByTitleFilter sections query exact := by
  intro sections query exact
  unfold DocQuery.find_sections_by_title
  simpa using find_foldl_filter query exact sections []

/-! ## Claim C1: `get_parent_chain` on a cyclic parent graph -/

/-- A two-section cycle: `sec_001.parent_id = sec_002` and
`sec_002.parent_id = sec_001`. -/
def secCycA : Section :=
  { id := some "sec_001", title := some "A", page_number := some 1,
    level := some 1, parent_id := some "sec_002" }

def secCycB : Section :=
  { id := some "sec_002", title := some "B", page_number := some 1,
    level := some 1, parent_id := some "sec_001" }

lemma cyc_go_none :
    ∀ (fuel : Nat) (chain : List Section) (cur : Section),
      cur = secCycA ∨ cur = secCycB →
      DocQuery.get_parent_chain_go [secCycA, secCycB] fuel cur chain = none := by
  intro fuel
  induction fuel with
  | zero => intro chain cur _; rfl
  | succ n ih =>
    intro chain cur h
    rcases h with h | h
    · subst h
      have step :
          DocQuery.get_parent_chain_go [secCycA, secCycB] (n + 1) secCycA chain =
            DocQuery.get_parent_chain_go [secCycA, secCycB] n secCycB
              (secCycB :: chain) := rfl
      rw [step]
      exact ih (secCycB :: chain) secCycB (Or.inr rfl)
    · subst h
      have step :
          DocQuery.get_parent_chain_go [secCycA, secCycB] (n + 1) secCycB chain =
            DocQuery.get_parent_chain_go [secCycA, secCycB] n secCycA
              (secCycA :: chain) := rfl
      rw [step]
      exact ih (secCycA :: chain) secCycA (Or.inl rfl)

/-- C1: the source's `while current` loop in `get_parent_chain` carries no
visited set or depth bound, so on a cyclic parent_id graph it never reaches
an exit condition: for every iteration budget the loop is still running
(`none`), i.e. the source function does not terminate on this input,
contradicting the claim that it terminates for every section list. -/
theorem C1_parent_chain_cycle_diverges :
    ∀ fuel : Nat,
      DocQuery.get_parent_chain fuel "sec_001" [secCycA, secCycB] = none := by
  intro fuel
  have h0 :
      DocQuery.get_parent_chain fuel "sec_001" [secCycA, secCycB] =
        DocQuery.get_parent_chain_go [secCycA, secCycB] fuel secCycA [] := rfl
  rw [h0]
  exact cyc_go_none fuel [] secCycA (Or.inl rfl)

/-! ## Claim C10: the pipeline's keyword-update call -/

/-- C10: with segmentation and keyword update enabled and an existing
keywords file, `run` always fails: the `update_keywords_file` call binds
the keyword argument `auto_classify_subsections`, which is not a parameter
of `update_keywords_file`, so Python raises `TypeError` at the call and the
keyword file is left unchanged (no discovery result is persisted). -/
theorem C10_update_call_type_error :
    ∀ (pages : List Page) (keywords_file : List String),
      DocPipe.runSegmentUpdateStep pages keywords_file =
        Except.error
          ("TypeError: update_keywords_file() got an unexpected " ++
            "keyword argument", keywords_file) := by
  intro pages keywords_file
  rfl

/-! ## Claim C6: keyword discovery -/

/-- The candidate filter applied by `discover_heading_candidates` to one
collapsed line text with its average size, on a page with the given median
size and keyword configuration. -/
def discoverKeeps (median : PyFloat) (keyword_set : List String)
    (keyword_patterns : List (String → Bool))
    (ta : String × Option PyFloat) : Bool :=
  !ta.1.isEmpty && !DocSeg.is_numeric_like ta.1 &&
    DocSeg.is_heading_candidate ta.1 median ta.2 keyword_set keyword_patterns

/-- One page's discovery output, from an arbitrary accumulator. -/
lemma discover_inner_fold (median : PyFloat) (keyword_set : List String)
    (keyword_patterns : List (String → Bool)) :
    ∀ (lines : List Line) (acc : List String),
      lines.foldl
        (fun cands line =>
          let text := collapseWs line.text
          if text.isEmpty || DocSeg.is_numeric_like text then cands
          else if DocSeg.is_heading_candidate text median line.avg_size
              keyword_set keyword_patterns then
            cands ++ [text]
          else cands)
        acc =
      acc ++
        (lines.map (fun l => (collapseWs l.text, l.avg_size))).filterMap
          (fun ta =>
            if discoverKeeps median keyword_set keyword_patterns ta then
              some ta.1
            else none) := by
  intro lines
  induction lines with
  | nil => intro acc; simp
  | cons l rest ih =>
    intro acc
    simp only [List.foldl_cons, List.map_cons, List.filterMap_cons]
    by_cases hE : (collapseWs l.text).isEmpty
    · simp only [hE, Bool.true_or, if_true]
      rw [ih]
      simp [discoverKeeps, hE]
    · by_cases hN : DocSeg.is_numeric_like (collapseWs l.text) = true
      · simp only [hE, hN, Bool.or_true, if_true]
        rw [ih]
        simp [discoverKeeps, hN]
      · by_cases hH : DocSeg.is_heading_candidate (collapseWs l.text) median
            l.avg_size keyword_set keyword_patterns = true
        · simp only [hE, hN, Bool.or_self, if_false]
          rw [if_pos hH, ih]
          simp [discoverKeeps, hE, hN, hH]
        · simp only [hE, hN, Bool.or_self, if_false]
          rw [if_neg (by simp [hH]), ih]
          simp [discoverKeeps, hE, hN, hH]

/-- `discover_heading_candidates` from an arbitrary accumulator. -/
lemma discover_outer_fold (keyword_set : List String)
    (keyword_patterns : List (String → Bool)) :
    ∀ (pages : List Page) (acc : List String),
      pages.foldl
        (fun cands page =>
          let median_size := DocSeg.median_font_size page.words
          let lines := DocSeg.pageLines page
          lines.foldl
            (fun cands line =>
              let text := collapseWs line.text
              if text.isEmpty || DocSeg.is_numeric_like text then cands
              else if DocSeg.is_heading_candidate text median_size
                  line.avg_size keyword_set keyword_patterns then
                cands ++ [text]
              else cands)
            cands)
        acc =
      acc ++
        (pages.map (fun page =>
          ((DocSeg.pageLines page).map
            (fun l => (collapseWs l.text, l.avg_size))).filterMap
            (fun ta =>
              if discoverKeeps (DocSeg.median_font_size page.words)
                  keyword_set keyword_patterns ta then
                some ta.1
              else none))).flatten := by
  intro pages
  induction pages with
  | nil => intro acc; simp
  | cons p rest ih =>
    intro acc
    simp only [List.foldl_cons, List.map_cons, List.flatten_cons]
    rw [discover_inner_fold, ih, List.append_assoc]

/-- Shared helper: discovery equals the amended filter formulation. -/
lemma discover_eq_amended (pages : List Page) (keyword_set : List String)
    (keyword_patterns : List (String → Bool)) :
    DocSeg.discover_heading_candidates pages keyword_set keyword_patterns =
      SpecSide.discoverAmended pages keyword_set keyword_patterns := by
  unfold DocSeg.discover_heading_candidates SpecSide.discoverAmended
  rw [discover_outer_fold]
  simp only [List.nil_append]
  refine congrArg List.flatten (List.map_congr_left (fun page _ => ?_))
  refine congrArg
    (fun f => List.filterMap f
      ((DocSeg.pageLines page).map (fun l => (collapseWs l.text, l.avg_size))))
    ?_
  funext ta
  unfold discoverKeeps
  rw [heading_candidate_eq_rules]

/-- A page whose line "Overview" is accepted **only** by the font-size
rule: three small words on the first visual line, one larger word on the
second (median 10, its average size 20 ≥ 10 + 2). -/
def pageFontOnly : Page :=
  { page_number := some 1, text := "",
    words := [
      { text := "lorem", x0 := ⟨0, 1⟩, top := some ⟨0, 1⟩, size := some ⟨10, 1⟩ },
      { text := "ipsum", x0 := ⟨5, 1⟩, top := some ⟨0, 1⟩, size := some ⟨10, 1⟩ },
      { text := "dolor", x0 := ⟨10, 1⟩, top := some ⟨0, 1⟩, size := some ⟨10, 1⟩ },
      { text := "Overview", x0 := ⟨0, 1⟩, top := some ⟨10, 1⟩,
        size := some ⟨20, 1⟩ }] }

/-- C6 (counterexample): discovery is **not** restricted to classifier
rules 2–4: on `pageFontOnly` the code returns the line "Overview", which is
accepted only by the font-size rule (rule 5), while the claimed rules-2–4
filter returns nothing. -/
theorem C6_font_size_counterexample :
    DocSeg.discover_heading_candidates [pageFontOnly] [] [] = ["Overview"] ∧
    SpecSide.discoverClaim [pageFontOnly] [] [] = [] := by
  constructor <;> decide

/-- C6 (amended): `discover_heading_candidates` returns exactly the
non-empty, non-(strict-)numeric-like assembled lines accepted by the full
classifier — rules 2–5, the font-size rule included — in page/visual
order. -/
theorem C6_discover_characterization :
    ∀ pages keyword_set keyword_patterns,
      DocSeg.discover_heading_candidates pages keyword_set keyword_patterns =
        SpecSide.discoverAmended pages keyword_set keyword_patterns :=
  fun pages ks pats => discover_eq_amended pages ks pats

/-! ## Claim C2: the hierarchy-assignment state machine -/

/-- An optional id that is never the empty string (Python truthiness of the
two state variables then coincides with `Option` emptiness). -/
def okOpt : Option String → Bool
  | none => true
  | some s => !s.isEmpty

/-- View of the code's segmentation state as the claim's state. -/
def segToHier (st : DocSeg.SegState) : SpecSide.HierState :=
  { sections := st.sections, counter := st.section_id,
    currentMainId := st.current_parent_id,
    currentSubId := st.current_subsection_id }

lemma secName_ne_empty (n : Nat) : (DocSeg.secName n).isEmpty = false := by
  simp only [DocSeg.secName]
  rw [Bool.eq_false_iff]
  intro h
  rw [String.isEmpty_iff] at h
  have := congrArg String.data h
  simp [String.data_append] at this

lemma okOpt_secName (n : Nat) : okOpt (some (DocSeg.secName n)) = true := by
  simp [okOpt, secName_ne_empty]

lemma okOpt_none : okOpt none = true := rfl

lemma okOpt_some (s : String) : okOpt (some s) = !s.isEmpty := rfl

lemma segLineStep_hier (keyword_set : List String)
    (keyword_patterns : List (String → Bool))
    (subsection_keyword_set : List String)
    (subsection_regex_patterns : List (String → Bool))
    (median : PyFloat) (pn : Option Int) (st : DocSeg.SegState) (line : Line)
    (hmain : okOpt st.current_parent_id = true)
    (hsub : okOpt st.current_subsection_id = true) :
    (segToHier (DocSeg.segLineStep keyword_set keyword_patterns
        subsection_keyword_set subsection_regex_patterns median pn st line) =
      (if !(collapseWs line.text).isEmpty &&
          DocSeg.is_heading_candidate (collapseWs line.text) median
            line.avg_size keyword_set keyword_patterns then
        SpecSide.hierAssign subsection_keyword_set subsection_regex_patterns
          pn (segToHier st) (collapseWs line.text)
      else segToHier st)) ∧
    okOpt (DocSeg.segLineStep keyword_set keyword_patterns
        subsection_keyword_set subsection_regex_patterns median pn st
        line).current_parent_id = true ∧
    okOpt (DocSeg.segLineStep keyword_set keyword_patterns
        subsection_keyword_set subsection_regex_patterns median pn st
        line).current_subsection_id = true := by
  unfold DocSeg.segLineStep SpecSide.hierAssign
  by_cases hE : (collapseWs line.text).isEmpty
  · simp [hE, hmain, hsub, segToHier]
  · simp only [hE, Bool.false_eq_true, if_false, Bool.not_false, Bool.true_and]
    by_cases hH : DocSeg.is_heading_candidate (collapseWs line.text) median
        line.avg_size keyword_set keyword_patterns = true
    · simp only [hH, if_true]
      by_cases hN : DocSeg.is_numeric_like (collapseWs line.text) = true
      · simp only [hN, if_true]
        cases hcs : st.current_subsection_id with
        | some subId =>
          have hne : subId.isEmpty = false := by
            have := hsub
            rw [hcs] at this
            simpa [okOpt] using this
          simp [hcs, hne, segToHier, hmain, hsub, optStrTruthy, okOpt_some]
        | none =>
          cases hcp : st.current_parent_id with
          | some mainId =>
            have hne : mainId.isEmpty = false := by
              have := hmain
              rw [hcp] at this
              simpa [okOpt] using this
            simp [hcs, hcp, hne, segToHier, hmain, hsub, optStrTruthy,
              okOpt_some, okOpt_none]
          | none =>
            simp [hcs, hcp, segToHier, optStrTruthy, okOpt_none]
      · simp only [hN, Bool.false_eq_true, if_false]
        by_cases hK : DocSeg.normalize (collapseWs line.text) ∈
              subsection_keyword_set ∨
            DocSeg.matches_patterns (collapseWs line.text)
              subsection_regex_patterns = true
        · simp [hK, segToHier, hmain, okOpt_secName]
        · simp [hK, segToHier, okOpt_secName, okOpt_none]
    · simp [hH, hmain, hsub, segToHier]

lemma segLines_fold (keyword_set : List String)
    (keyword_patterns : List (String → Bool))
    (subsection_keyword_set : List String)
    (subsection_regex_patterns : List (String → Bool))
    (median : PyFloat) (pn : Option Int) :
    ∀ (lines : List Line) (st : DocSeg.SegState),
      okOpt st.current_parent_id = true →
      okOpt st.current_subsection_id = true →
      segToHier (lines.foldl
          (DocSeg.segLineStep keyword_set keyword_patterns
            subsection_keyword_set subsection_regex_patterns median pn) st) =
        ((lines.map (fun l => (collapseWs l.text, l.avg_size))).filterMap
          (fun ta =>
            if !ta.1.isEmpty &&
                DocSeg.is_heading_candidate ta.1 median ta.2 keyword_set
                  keyword_patterns then
              some ta.1
            else none)).foldl
          (SpecSide.hierAssign subsection_keyword_set
            subsection_regex_patterns pn)
          (segToHier st) := by
  intro lines
  induction lines with
  | nil => intro st _ _; simp
  | cons l rest ih =>
    intro st hmain hsub
    obtain ⟨hstep, hmain', hsub'⟩ :=
      segLineStep_hier keyword_set keyword_patterns subsection_keyword_set
        subsection_regex_patterns median pn st l hmain hsub
    simp only [List.foldl_cons, List.map_cons, List.filterMap_cons]
    by_cases hkeep : (!(collapseWs l.text).isEmpty &&
        DocSeg.is_heading_candidate (collapseWs l.text) median l.avg_size
          keyword_set keyword_patterns) = true
    · rw [if_pos hkeep] at hstep ⊢
      rw [List.foldl_cons, ih _ hmain' hsub', hstep]
    · rw [if_neg hkeep] at hstep ⊢
      rw [ih _ hmain' hsub', hstep]

lemma segPage_fold (keyword_set : List String)
    (keyword_patterns : List (String → Bool))
    (subsection_keyword_set : List String)
    (subsection_regex_patterns : List (String → Bool)) :
    ∀ (pages : List Page) (st : DocSeg.SegState),
      segToHier (pages.foldl
          (DocSeg.segPageStep keyword_set keyword_patterns
            subsection_keyword_set subsection_regex_patterns) st) =
        pages.foldl
          (fun hst page =>
            (SpecSide.classifiedHeadings page keyword_set
              keyword_patterns).foldl
              (SpecSide.hierAssign subsection_keyword_set
                subsection_regex_patterns page.page_number)
              { hst with currentMainId := none, currentSubId := none })
          (segToHier st) := by
  intro pages
  induction pages with
  | nil => intro st; rfl
  | cons p rest ih =>
    intro st
    simp only [List.foldl_cons]
    rw [ih]
    congr 1
    unfold DocSeg.segPageStep SpecSide.classifiedHeadings
    rw [segLines_fold _ _ _ _ _ _ _
      { st with current_parent_id := none, current_subsection_id := none }
      rfl rfl]
    rfl

/-- The concrete page of C2's example: three visual lines "CAMPAIGNS",
"Q1 Results", "123 45 67"; the numeric line's words are larger (size 20,
page median 15) so that it is classified by the font-size rule. -/
def pageHier : Page :=
  { page_number := some 1, text := "",
    words := [
      { text := "CAMPAIGNS", x0 := ⟨0, 1⟩, top := some ⟨0, 1⟩,
        size := some ⟨10, 1⟩ },
      { text := "Q1", x0 := ⟨0, 1⟩, top := some ⟨10, 1⟩, size := some ⟨10, 1⟩ },
      { text := "Results", x0 := ⟨5, 1⟩, top := some ⟨10, 1⟩,
        size := some ⟨10, 1⟩ },
      { text := "123", x0 := ⟨0, 1⟩, top := some ⟨20, 1⟩, size := some ⟨20, 1⟩ },
      { text := "45", x0 := ⟨5, 1⟩, top := some ⟨20, 1⟩, size := some ⟨20, 1⟩ },
      { text := "67", x0 := ⟨10, 1⟩, top := some ⟨20, 1⟩,
        size := some ⟨20, 1⟩ }] }

/-- C2: the segmenter's hierarchy assignment equals the claimed state
machine (per-page reset of `currentMainId`/`currentSubId`, numeric →
level 3 under an open sub, else level 2 under an open main, else level 1;
subsection keyword/regex → level 2 under `currentMainId`; otherwise
level 1 and new main; one global monotone id counter), and the cited
three-heading example produces sec_001/sec_002/sec_003 with levels 1/2/3
and parents null/sec_001/sec_002. -/
theorem C2_hierarchy_state_machine :
    (∀ pages main_keywords subsection_keywords main_regex subsection_regex,
      DocSeg.segment_sections_with_keywords pages main_keywords
          subsection_keywords main_regex subsection_regex =
        SpecSide.segmentClaim pages main_keywords subsection_keywords
          main_regex subsection_regex) ∧
    DocSeg.segment_sections_with_keywords [pageHier] [] ["Q1 Results"] [] [] =
      [{ id := some "sec_001", title := some "CAMPAIGNS",
         page_number := some 1, level := some 1, parent_id := none },
       { id := some "sec_002", title := some "Q1 Results",
         page_number := some 1, level := some 2,
         parent_id := some "sec_001" },
       { id := some "sec_003", title := some "123 45 67",
         page_number := some 1, level := some 3,
         parent_id := some "sec_002" }] := by
  constructor
  · intro pages main_keywords subsection_keywords main_regex subsection_regex
    unfold DocSeg.segment_sections_with_keywords SpecSide.segmentClaim
    simp only [List.map_append]
    have h := segPage_fold
      (main_keywords.map DocSeg.normalize ++
        subsection_keywords.map DocSeg.normalize)
      (main_regex ++ subsection_regex)
      (subsection_keywords.map DocSeg.normalize) subsection_regex pages
      { sections := [], section_id := 0, current_parent_id := none,
        current_subsection_id := none }
    exact congrArg SpecSide.HierState.sections h
  · decide

/-! ## Claim C8: no empty chunks -/

lemma ne_nil_of_not_isEmpty {s : String} (h : ¬s.isEmpty = true) :
    s.data ≠ [] := by
  intro hd
  apply h
  rw [String.isEmpty_iff]
  cases s with
  | mk d =>
    have hd2 : d = [] := hd
    subst hd2
    rfl

lemma joinWith_head_ne_nil (sep : Char) (p : List Char)
    (ps : List (List Char)) (hp : p ≠ []) : joinWith sep (p :: ps) ≠ [] := by
  cases ps with
  | nil => simpa [joinWith] using hp
  | cons q qs => simp [joinWith]

lemma flush_chunk_inv (chunks : List Chunk) (cid : Nat) (sid : String)
    (sections : List Section) (pn : Int) (kind : String)
    (lines : List String)
    (hchunks : ∀ c ∈ chunks, c.text ≠ "" ∧ 1 ≤ c.line_count)
    (hlines : ∀ l ∈ lines, ¬l.isEmpty = true) :
    ∀ c ∈ DocChunk.flush_chunk chunks cid sid sections pn kind lines,
      c.text ≠ "" ∧ 1 ≤ c.line_count := by
  unfold DocChunk.flush_chunk
  by_cases he : lines.isEmpty
  · simpa [he] using hchunks
  · simp only [he, Bool.false_eq_true, if_false]
    intro c hc
    rcases List.mem_append.1 hc with hold | hnew
    · exact hchunks c hold
    · cases lines with
      | nil => simp at he
      | cons l0 rest =>
        have hl0 : l0.data ≠ [] :=
          ne_nil_of_not_isEmpty (hlines l0 (List.mem_cons_self l0 rest))
        rcases List.mem_singleton.1 hnew with rfl
        refine ⟨?_, by simp⟩
        intro htxt
        have := congrArg String.data htxt
        simp only [List.map_cons] at this
        exact joinWith_head_ne_nil '\n' l0.data (rest.map String.data)
          hl0 this

/-- Generic fold invariant with a per-element property. -/
lemma foldl_inv {α σ : Type} (I : σ → Prop) (Q : α → Prop)
    (f : σ → α → σ) (hf : ∀ s a, I s → Q a → I (f s a)) :
    ∀ (l : List α) (s : σ), I s → (∀ a ∈ l, Q a) → I (l.foldl f s) := by
  intro l
  induction l with
  | nil => intro s hs _; exact hs
  | cons a rest ih =>
    intro s hs hq
    exact ih (f s a) (hf s a hs (hq a (List.mem_cons_self a rest)))
      (fun b hb => hq b (List.mem_cons_of_mem a hb))

/-- Invariant of the per-line chunking walk: all emitted chunks are
non-empty and the buffer holds only non-blank lines. -/
def walkInv (w : DocChunk.PageWalk) : Prop :=
  (∀ c ∈ w.st.chunks, c.text ≠ "" ∧ 1 ≤ c.line_count) ∧
    ∀ l ∈ w.buffer, ¬l.isEmpty = true

lemma chunkLineStep_inv (sections : List Section) (on_page : List Section)
    (pn : Int) (w : DocChunk.PageWalk) (line : String)
    (hw : walkInv w) (hline : ¬line.isEmpty = true) :
    walkInv (DocChunk.chunkLineStep sections on_page pn w line) := by
  obtain ⟨hchunks, hbuf⟩ := hw
  unfold DocChunk.chunkLineStep
  by_cases hm : DocChunk.cursor_title_matches on_page w.cursor line = true
  · simp only [hm, if_true]
    refine ⟨?_, by simp⟩
    cases hc : w.st.current_section_id with
    | none =>
      simp only [hc]
      exact hchunks
    | some sid =>
      simp only [hc]
      by_cases hse : sid.isEmpty
      · simpa [hse] using hchunks
      · simp only [hse, Bool.false_eq_true, if_false]
        exact fun c hcm =>
          flush_chunk_inv w.st.chunks (w.st.chunk_id + 1) sid sections pn
            w.current_kind w.buffer hchunks hbuf c hcm
  · simp only [hm, Bool.false_eq_true, if_false]
    by_cases ht : optStrTruthy w.st.current_section_id = true
    · simp only [ht, Bool.not_true, Bool.false_eq_true, if_false]
      split <;> split
      · cases hc : w.st.current_section_id with
        | none =>
          simp only [hc]
          exact ⟨hchunks, hbuf⟩
        | some sid =>
          simp only [hc]
          refine ⟨?_, ?_⟩
          · exact fun c hcm =>
              flush_chunk_inv w.st.chunks (w.st.chunk_id + 1) sid sections
                pn w.current_kind w.buffer hchunks hbuf c hcm
          · intro l hl
            rcases List.mem_singleton.1 hl with rfl
            exact hline
      · refine ⟨hchunks, ?_⟩
        intro l hl
        rcases List.mem_append.1 hl with h1 | h2
        · exact hbuf l h1
        · rcases List.mem_singleton.1 h2 with rfl
          exact hline
      · cases hc : w.st.current_section_id with
        | none =>
          simp only [hc]
          exact ⟨hchunks, hbuf⟩
        | some sid =>
          simp only [hc]
          refine ⟨?_, ?_⟩
          · exact fun c hcm =>
              flush_chunk_inv w.st.chunks (w.st.chunk_id + 1) sid sections
                pn w.current_kind w.buffer hchunks hbuf c hcm
          · intro l hl
            rcases List.mem_singleton.1 hl with rfl
            exact hline
      · refine ⟨hchunks, ?_⟩
        intro l hl
        rcases List.mem_append.1 hl with h1 | h2
        · exact hbuf l h1
        · rcases List.mem_singleton.1 h2 with rfl
          exact hline
    · simp only [Bool.not_eq_true] at ht
      simp only [ht, Bool.not_false, if_true]
      exact ⟨hchunks, hbuf⟩

lemma chunkPageStep_inv (sections : List Section)
    (st : DocChunk.ChunkState) (page : Page)
    (hst : ∀ c ∈ st.chunks, c.text ≠ "" ∧ 1 ≤ c.line_count) :
    ∀ c ∈ (DocChunk.chunkPageStep sections st page).chunks,
      c.text ≠ "" ∧ 1 ≤ c.line_count := by
  unfold DocChunk.chunkPageStep
  cases hpn : page.page_number with
  | none => simpa using hst
  | some pn =>
    simp only
    by_cases hl : (((pySplitlines page.text).map pyStrip).filter
        (fun l => !l.isEmpty)).isEmpty
    · simp only [hl, if_true]
      exact hst
    · simp only [hl, Bool.false_eq_true, if_false]
      have hlines : ∀ l ∈ ((pySplitlines page.text).map pyStrip).filter
          (fun l => !l.isEmpty), ¬l.isEmpty = true := by
        intro l hml
        have := List.of_mem_filter hml
        simpa using this
      have hfold : walkInv ((((pySplitlines page.text).map pyStrip).filter
          (fun l => !l.isEmpty)).foldl
          (DocChunk.chunkLineStep sections
            (DocChunk.sections_on_page sections pn) pn)
          { st := st, cursor := 0, buffer := [], current_kind := "paragraph" }) := by
        refine foldl_inv walkInv (fun l => ¬l.isEmpty = true)
          (DocChunk.chunkLineStep sections
            (DocChunk.sections_on_page sections pn) pn)
          (fun w line hw hline =>
            chunkLineStep_inv sections
              (DocChunk.sections_on_page sections pn) pn w line hw hline)
          _ _ ⟨hst, by simp⟩ hlines
      set w := (((pySplitlines page.text).map pyStrip).filter
          (fun l => !l.isEmpty)).foldl
          (DocChunk.chunkLineStep sections
            (DocChunk.sections_on_page sections pn) pn)
          { st := st, cursor := 0, buffer := [], current_kind := "paragraph" }
      obtain ⟨hchunks, hbuf⟩ := hfold
      cases hc : w.st.current_section_id with
      | none => exact hchunks
      | some sid =>
        by_cases hskip : (sid.isEmpty || w.buffer.isEmpty) = true
        · simpa [hskip] using hchunks
        · simp only [hskip, Bool.false_eq_true, if_false]
          exact fun c hcm =>
            flush_chunk_inv w.st.chunks (w.st.chunk_id + 1) sid sections pn
              w.current_kind w.buffer hchunks hbuf c hcm

/-- C8: every chunk emitted by `chunk_sections` has non-empty text and at
least one buffered line: buffers hold only non-blank stripped lines and
are flushed only when non-empty. -/
theorem C8_chunks_nonempty :
    ∀ (pages : List Page) (sections : List Section),
      ∀ c ∈ DocChunk.chunk_sections pages sections,
        c.text ≠ "" ∧ 1 ≤ c.line_count := by
  intro pages sections
  unfold DocChunk.chunk_sections
  have := foldl_inv
    (fun (st : DocChunk.ChunkState) =>
      ∀ c ∈ st.chunks, c.text ≠ "" ∧ 1 ≤ c.line_count)
    (fun _ => True)
    (DocChunk.chunkPageStep sections)
    (fun st page hst _ => chunkPageStep_inv sections st page hst)
    pages
    { chunks := [], chunk_id := 0, current_section_id := none }
    (by simp) (fun _ _ => trivial)
  exact this

/-- A one-page, one-section input on which `chunk_sections` emits a chunk. -/
def pageChunkEx : Page :=
  { page_number := some 1, text := "TITLE\ndata line", words := [] }

def secChunkEx : Section :=
  { id := some "sec_001", title := some "TITLE", page_number := some 1,
    level := some 1, parent_id := none }

/-- The chunk emitted for `pageChunkEx`/`secChunkEx`. -/
def chunkEx : Chunk :=
  { id := "chunk_001", section_id := "sec_001", section_path := ["TITLE"],
    page_number := 1, kind := "paragraph", text := "data line",
    line_count := 1 }

/-- C8 (witness): the invariant applied to the concrete chunk emitted for
`pageChunkEx`/`secChunkEx`. -/
theorem C8_chunks_nonempty_witness :
    chunkEx.text ≠ "" ∧ 1 ≤ chunkEx.line_count :=
  C8_chunks_nonempty [pageChunkEx] [secChunkEx] chunkEx (by decide)

/-! ## Claim C7: idempotence of discovery + keyword update

First: whitespace-collapse outputs are fixed points of `strip`. -/

lemma dropWhile_eq_self_of_head {p : Char → Bool} {l : List Char}
    (h : ∀ c, l.head? = some c → p c = false) : l.dropWhile p = l := by
  cases l with
  | nil => rfl
  | cons a t =>
    rw [List.dropWhile_cons, if_neg]
    simp [h a rfl]

lemma stripL_eq_self {l : List Char}
    (h1 : ∀ c, l.head? = some c → pyIsWs c = false)
    (h2 : ∀ c, l.getLast? = some c → pyIsWs c = false) : stripL l = l := by
  unfold stripL
  rw [dropWhile_eq_self_of_head h1]
  rw [dropWhile_eq_self_of_head (fun c hc => h2 c (by rwa [← List.head?_reverse]))]
  exact List.reverse_reverse l

lemma splitWsGo_pieces :
    ∀ (cs acc : List Char), acc.all (fun c => !pyIsWs c) = true →
      ∀ p ∈ splitWsGo cs acc, p ≠ [] ∧ p.all (fun c => !pyIsWs c) = true := by
  intro cs
  induction cs with
  | nil =>
    intro acc hacc p hp
    unfold splitWsGo at hp
    by_cases he : acc.isEmpty
    · simp [he] at hp
    · simp only [he, Bool.false_eq_true, if_false, List.mem_singleton] at hp
      subst hp
      refine ⟨?_, by simpa using hacc⟩
      intro hrev
      apply he
      simpa [List.isEmpty_iff] using congrArg List.reverse hrev
  | cons c rest ih =>
    intro acc hacc p hp
    unfold splitWsGo at hp
    by_cases hwc : pyIsWs c
    · simp only [hwc, if_true] at hp
      by_cases he : acc.isEmpty
      · simp only [he, if_true] at hp
        exact ih [] rfl p hp
      · simp only [he, Bool.false_eq_true, if_false, List.mem_cons] at hp
        rcases hp with hp | hp
        · subst hp
          refine ⟨?_, by simpa using hacc⟩
          intro hrev
          apply he
          simpa [List.isEmpty_iff] using congrArg List.reverse hrev
        · exact ih [] rfl p hp
    · simp only [hwc, Bool.false_eq_true, if_false] at hp
      refine ih (c :: acc) ?_ p hp
      simp only [List.all_cons, hacc, Bool.and_true]
      simp [hwc]

lemma joinWith_head? (sep : Char) (p : List Char) (ps : List (List Char))
    (hp : p ≠ []) : (joinWith sep (p :: ps)).head? = p.head? := by
  cases ps with
  | nil => rfl
  | cons q qs =>
    cases p with
    | nil => exact absurd rfl hp
    | cons a t => rfl

lemma joinWith_ne_nil (sep : Char) (p : List Char) (ps : List (List Char))
    (hp : p ≠ []) : joinWith sep (p :: ps) ≠ [] := by
  intro h
  have := joinWith_head? sep p ps hp
  rw [h] at this
  cases p with
  | nil => exact hp rfl
  | cons a t => simp at this

lemma joinWith_getLast? (sep : Char) :
    ∀ (ps : List (List Char)) (p : List Char),
      (∀ q ∈ p :: ps, q ≠ []) →
      ∃ q ∈ p :: ps, (joinWith sep (p :: ps)).getLast? = q.getLast? := by
  intro ps
  induction ps with
  | nil =>
    intro p _
    exact ⟨p, List.mem_singleton.2 rfl, rfl⟩
  | cons q qs ih =>
    intro p hne
    obtain ⟨r, hr, hlast⟩ := ih q (fun x hx => hne x (List.mem_cons_of_mem p hx))
    refine ⟨r, List.mem_cons_of_mem p hr, ?_⟩
    have hq : joinWith sep (q :: qs) ≠ [] :=
      joinWith_ne_nil sep q qs (hne q (by simp))
    calc (joinWith sep (p :: q :: qs)).getLast?
        = (p ++ sep :: joinWith sep (q :: qs)).getLast? := rfl
      _ = (sep :: joinWith sep (q :: qs)).getLast? := by
          rw [List.getLast?_append_of_ne_nil]
          simp
      _ = (joinWith sep (q :: qs)).getLast? := by
          cases hjl : joinWith sep (q :: qs) with
          | nil => exact absurd hjl hq
          | cons b t => exact List.getLast?_cons_cons
      _ = r.getLast? := hlast

lemma my_length_dropWhile_le (p : Char → Bool) :
    ∀ l : List Char, (l.dropWhile p).length ≤ l.length := by
  intro l
  induction l with
  | nil => simp
  | cons a t ih =>
    rw [List.dropWhile_cons]
    by_cases hp : p a = true
    · rw [if_pos hp]
      simpa using Nat.le_succ_of_le ih
    · rw [if_neg hp]

lemma mem_of_getLast?_eq {l : List Char} {c : Char}
    (h : l.getLast? = some c) : c ∈ l := by
  have hm : c ∈ l.getLast? := by
    rw [Option.mem_def]
    exact h
  obtain ⟨hne, heq⟩ := List.mem_getLast?_eq_getLast hm
  rw [heq]
  exact List.getLast_mem hne

lemma pyStrip_collapseWs (s : String) :
    pyStrip (collapseWs s) = collapseWs s := by
  unfold collapseWs pyStrip
  have hdata : (String.mk (joinWith ' ' (splitWsGo s.toList []))).toList =
      joinWith ' ' (splitWsGo s.toList []) := rfl
  rw [hdata]
  congr 1
  cases hps : splitWsGo s.toList [] with
  | nil => rfl
  | cons p ps =>
    have hpieces := splitWsGo_pieces s.toList [] rfl
    rw [hps] at hpieces
    have hp := hpieces p (by simp)
    refine stripL_eq_self ?_ ?_
    · intro c hc
      rw [joinWith_head? ' ' p ps hp.1] at hc
      have hcm : c ∈ p := by
        cases p with
        | nil => simp at hc
        | cons a t =>
          simp only [List.head?_cons, Option.some_inj] at hc
          subst hc
          simp
      have := List.all_eq_true.1 hp.2 c hcm
      simpa using this
    · intro c hc
      obtain ⟨q, hq, hqlast⟩ :=
        joinWith_getLast? ' ' ps p (fun x hx => (hpieces x hx).1)
      rw [hqlast] at hc
      have hcm : c ∈ q := mem_of_getLast?_eq hc
      have := List.all_eq_true.1 (hpieces q hq).2 c hcm
      simpa using this

/-- Any output of the discovery line normalization is its own strip. -/
lemma collapseWs_strip_fixed (s : String) :
    pyStrip (collapseWs s) = collapseWs s := pyStrip_collapseWs s

lemma dropWhile_length_eq {p : Char → Bool} :
    ∀ {l : List Char}, (l.dropWhile p).length = l.length → l.dropWhile p = l := by
  intro l
  induction l with
  | nil => intro _; rfl
  | cons a t ih =>
    intro h
    rw [List.dropWhile_cons] at h ⊢
    by_cases hp : p a = true
    · rw [if_pos hp] at h
      have := my_length_dropWhile_le p t
      simp at h
      omega
    · rw [if_neg hp]

/-- A strip fixed point keeps its ends: both `dropWhile` passes are the
identity. -/
lemma stripL_fix_parts {l : List Char} (h : stripL l = l) :
    l.dropWhile pyIsWs = l ∧ l.reverse.dropWhile pyIsWs = l.reverse := by
  unfold stripL at h
  have hlen1 : (l.dropWhile pyIsWs).length ≤ l.length :=
    my_length_dropWhile_le pyIsWs l
  have hlen2 : ((l.dropWhile pyIsWs).reverse.dropWhile pyIsWs).length ≤
      (l.dropWhile pyIsWs).length := by
    have := my_length_dropWhile_le pyIsWs (l.dropWhile pyIsWs).reverse
    simpa using this
  have hlen3 : ((l.dropWhile pyIsWs).reverse.dropWhile pyIsWs).length =
      l.length := by
    have := congrArg List.length h
    simpa using this
  have hd : l.dropWhile pyIsWs = l := dropWhile_length_eq (by omega)
  refine ⟨hd, ?_⟩
  rw [hd] at h
  have := congrArg List.reverse h
  rw [List.reverse_reverse] at this
  exact dropWhile_length_eq (by rw [this])

lemma head_not_ws_of_dropWhile_self {l : List Char}
    (h : l.dropWhile pyIsWs = l) :
    ∀ c, l.head? = some c → pyIsWs c = false := by
  intro c hc
  cases l with
  | nil => simp at hc
  | cons a t =>
    have hac : a = c := by simpa using hc
    subst hac
    by_cases hp : pyIsWs a = true
    · rw [List.dropWhile_cons, if_pos hp] at h
      have := congrArg List.length h
      have hle := my_length_dropWhile_le pyIsWs t
      simp at this
      omega
    · simpa using hp

/-- The two end facts of a nonempty strip fixed point. -/
lemma strip_fixed_ends {v : String} (hfix : pyStrip v = v) :
    (∀ c, v.toList.head? = some c → pyIsWs c = false) ∧
      (∀ c, v.toList.getLast? = some c → pyIsWs c = false) := by
  have hl : stripL v.toList = v.toList := by
    have := congrArg String.toList hfix
    simpa [pyStrip] using this
  obtain ⟨h1, h2⟩ := stripL_fix_parts hl
  refine ⟨head_not_ws_of_dropWhile_self h1, ?_⟩
  intro c hc
  refine head_not_ws_of_dropWhile_self h2 c ?_
  rwa [List.head?_reverse]

/-- Componentwise concatenation of parsed keyword data. -/
def kwAppend (a b : KeywordsData) : KeywordsData :=
  ⟨a.main ++ b.main, a.sub ++ b.sub, a.main_regex ++ b.main_regex,
    a.sub_regex ++ b.sub_regex⟩

lemma kwAppend_assoc (a b c : KeywordsData) :
    kwAppend (kwAppend a b) c = kwAppend a (kwAppend b c) := by
  simp [kwAppend, List.append_assoc]

lemma kwAppend_empty (a : KeywordsData) : kwAppend a ⟨[], [], [], []⟩ = a := by
  simp [kwAppend]

lemma loadKeywordsStep_split (d : KeywordsData) (line : String) :
    DocSeg.loadKeywordsStep d line =
      kwAppend d (DocSeg.loadKeywordsStep ⟨[], [], [], []⟩ line) := by
  unfold DocSeg.loadKeywordsStep
  dsimp only
  split_ifs <;> simp [kwAppend]

lemma load_keywords_from (l : List String) :
    ∀ d : KeywordsData,
      l.foldl DocSeg.loadKeywordsStep d =
        kwAppend d (DocSeg.load_keywords_file l) := by
  induction l with
  | nil => intro d; simp [DocSeg.load_keywords_file, kwAppend]
  | cons a rest ih =>
    intro d
    unfold DocSeg.load_keywords_file
    simp only [List.foldl_cons]
    rw [ih, ih (DocSeg.loadKeywordsStep ⟨[], [], [], []⟩ a),
      loadKeywordsStep_split d a, kwAppend_assoc]

lemma load_keywords_append (l1 l2 : List String) :
    DocSeg.load_keywords_file (l1 ++ l2) =
      kwAppend (DocSeg.load_keywords_file l1)
        (DocSeg.load_keywords_file l2) := by
  unfold DocSeg.load_keywords_file
  rw [List.foldl_append]
  exact load_keywords_from l2 _

lemma listPrefixOf_cons_eq {a : Char} {as bs : List Char} :
    listPrefixOf (a :: as) (a :: bs) = listPrefixOf as bs := by
  simp [listPrefixOf]

lemma listPrefixOf_cons_ne {a b : Char} {as bs : List Char} (h : a ≠ b) :
    listPrefixOf (a :: as) (b :: bs) = false := by
  simp [listPrefixOf, h]

/-- Round trip of one auto-discovered `main:` line, for a value that is a
nonempty strip fixed point. -/
lemma loadKeywordsStep_main_line (d : KeywordsData) (v : String)
    (hfix : pyStrip v = v) (hne : v.isEmpty = false) :
    DocSeg.loadKeywordsStep d ("main: " ++ v) =
      { d with main := d.main ++ [v] } := by
  obtain ⟨hhead, hlast⟩ := strip_fixed_ends hfix
  have hvdata : v.toList ≠ [] := ne_nil_of_not_isEmpty (by simp [hne])
  have hdata : ("main: " ++ v).toList =
      'm' :: 'a' :: 'i' :: 'n' :: ':' :: ' ' :: v.toList := by
    have h1 : ("main: " ++ v).toList = "main: ".toList ++ v.toList := by
      simp [String.toList, String.data_append]
    rw [h1]
    rfl
  -- the raw line is already stripped
  have hstrip : pyStrip ("main: " ++ v) = "main: " ++ v := by
    unfold pyStrip
    rw [hdata]
    rw [stripL_eq_self]
    · cases hv : ("main: " ++ v) with
      | mk dd =>
        have : dd = 'm' :: 'a' :: 'i' :: 'n' :: ':' :: ' ' :: v.toList := by
          have := hdata
          rw [hv] at this
          exact this
        rw [this]
    · intro c hc
      have hmc : 'm' = c := by simpa using hc
      rw [← hmc]
      rfl
    · intro c hc
      apply hlast
      rw [← hc]
      cases hl : v.toList with
      | nil => exact absurd hl hvdata
      | cons x xs =>
        simp [List.getLast?_cons_cons]
  have hempty : ("main: " ++ v).isEmpty = false := by
    rw [Bool.eq_false_iff]
    intro hq
    rw [String.isEmpty_iff] at hq
    have := congrArg String.toList hq
    rw [hdata] at this
    simp at this
  have hlower : (pyLower ("main: " ++ v)).toList =
      'm' :: 'a' :: 'i' :: 'n' :: ':' :: ' ' :: (v.toList.map pyToLowerChar) := by
    unfold pyLower
    show (("main: " ++ v).toList.map pyToLowerChar) = _
    rw [hdata]
    rfl
  have hpre : ∀ (p : String), pyStartsWith (pyLower ("main: " ++ v)) p =
      listPrefixOf p.toList
        ('m' :: 'a' :: 'i' :: 'n' :: ':' :: ' ' :: (v.toList.map pyToLowerChar)) := by
    intro p
    unfold pyStartsWith
    rw [hlower]
  have hhash : pyStartsWith ("main: " ++ v) "#" = false := by
    unfold pyStartsWith
    rw [hdata]
    rfl
  have h1 : pyStartsWith (pyLower ("main: " ++ v)) "main_regex:" = false := by
    rw [hpre]
    rfl
  have h2 : pyStartsWith (pyLower ("main: " ++ v)) "main-regex:" = false := by
    rw [hpre]
    rfl
  have h3 : pyStartsWith (pyLower ("main: " ++ v)) "sub_regex:" = false := by
    rw [hpre]
    rfl
  have h4 : pyStartsWith (pyLower ("main: " ++ v)) "sub-regex:" = false := by
    rw [hpre]
    rfl
  have h5 : pyStartsWith (pyLower ("main: " ++ v)) "regex:" = false := by
    rw [hpre]
    rfl
  have h6 : pyStartsWith (pyLower ("main: " ++ v)) "sub:" = false := by
    rw [hpre]
    rfl
  have h7 : pyStartsWith (pyLower ("main: " ++ v)) "subsection:" = false := by
    rw [hpre]
    rfl
  have h8 : pyStartsWith (pyLower ("main: " ++ v)) "main:" = true := by
    rw [hpre]
    show listPrefixOf "main:".toList _ = true
    rfl
  have hafter : pyAfterFirst ':' ("main: " ++ v).toList = ' ' :: v.toList := by
    rw [hdata]
    rfl
  have hvalue : pyStrip (String.mk (pyAfterFirst ':' ("main: " ++ v).toList)) = v := by
    rw [hafter]
    unfold pyStrip
    have hlist : (String.mk (' ' :: v.toList)).toList = ' ' :: v.toList := rfl
    rw [hlist]
    have hsfix : stripL v.toList = v.toList := by
      have := congrArg String.toList hfix
      simpa [pyStrip] using this
    obtain ⟨hd1, hd2⟩ := stripL_fix_parts hsfix
    unfold stripL
    rw [List.dropWhile_cons]
    rw [if_pos (by rfl)]
    rw [hd1]
    unfold stripL at hsfix
    rw [hd1] at hsfix
    rw [hsfix]
    cases v with
    | mk dd => rfl
  unfold DocSeg.loadKeywordsStep
  dsimp only
  rw [hstrip, hempty, hhash, h1, h2, h3, h4, h5, h6, h7, h8, hvalue, hne]
  simp

lemma loadKeywordsStep_blank (d : KeywordsData) :
    DocSeg.loadKeywordsStep d "" = d := rfl

lemma loadKeywordsStep_comment (d : KeywordsData) :
    DocSeg.loadKeywordsStep d "# Auto-discovered keywords" = d := rfl

/-- Parsing a block of `main: v` lines appends exactly the values. -/
lemma load_main_block :
    ∀ (mains : List String) (d : KeywordsData),
      (∀ v ∈ mains, pyStrip v = v ∧ v.isEmpty = false) →
      (mains.map (fun v => "main: " ++ v)).foldl DocSeg.loadKeywordsStep d =
        { d with main := d.main ++ mains } := by
  intro mains
  induction mains with
  | nil => intro d _; simp
  | cons v rest ih =>
    intro d hv
    simp only [List.map_cons, List.foldl_cons]
    rw [loadKeywordsStep_main_line d v (hv v (by simp)).1 (hv v (by simp)).2]
    rw [ih _ (fun x hx => hv x (List.mem_cons_of_mem v hx))]
    simp

/-- The auto-discovered block parses to exactly its main values. -/
lemma load_block (mains : List String)
    (h : ∀ v ∈ mains, pyStrip v = v ∧ v.isEmpty = false) :
    DocSeg.load_keywords_file
        ("" :: "# Auto-discovered keywords" ::
          mains.map (fun v => "main: " ++ v)) =
      ⟨mains, [], [], []⟩ := by
  unfold DocSeg.load_keywords_file
  simp only [List.foldl_cons, loadKeywordsStep_blank, loadKeywordsStep_comment]
  rw [load_main_block mains ⟨[], [], [], []⟩ h]
  simp

lemma mem_stableInsert {le : α → α → Bool} {x y : α} {l : List α} :
    x ∈ stableInsert le y l ↔ x = y ∨ x ∈ l := by
  induction l with
  | nil => simp [stableInsert]
  | cons a t ih =>
    unfold stableInsert
    by_cases h : le a y = true
    · rw [if_pos h]
      simp only [List.mem_cons, ih]
      tauto
    · rw [if_neg (by simp [h])]
      simp only [List.mem_cons]

lemma mem_stableSort_aux {le : α → α → Bool} {x : α} :
    ∀ (l acc : List α),
      (x ∈ l.foldl (fun a y => stableInsert le y a) acc ↔ x ∈ acc ∨ x ∈ l) := by
  intro l
  induction l with
  | nil => intro acc; simp
  | cons a t ih =>
    intro acc
    simp only [List.foldl_cons, ih, mem_stableInsert, List.mem_cons]
    tauto

lemma mem_stableSort {le : α → α → Bool} {x : α} {l : List α} :
    x ∈ stableSort le l ↔ x ∈ l := by
  unfold stableSort
  rw [mem_stableSort_aux]
  simp

/-- `newMainLoop` prepends its accumulator. -/
lemma newMainLoop_acc :
    ∀ (cands mn sn acc : List String),
      DocSeg.newMainLoop cands mn sn acc =
        acc ++ DocSeg.newMainLoop cands mn sn [] := by
  intro cands
  induction cands with
  | nil => intro mn sn acc; simp [DocSeg.newMainLoop]
  | cons c rest ih =>
    intro mn sn acc
    unfold DocSeg.newMainLoop
    by_cases h : (!mn.contains (DocSeg.normalize c) &&
        !sn.contains (DocSeg.normalize c)) = true
    · simp only [h, if_true]
      rw [ih _ _ (acc ++ [c]), ih _ _ ([] ++ [c])]
      simp
    · simp only [h, Bool.false_eq_true, if_false]
      exact ih mn sn acc

/-- Every candidate's normalized form ends up covered: in one of the two
existing sets or among the newly kept values. -/
lemma newMainLoop_covers :
    ∀ (cands mn sn acc : List String) (c : String), c ∈ cands →
      DocSeg.normalize c ∈ mn ∨ DocSeg.normalize c ∈ sn ∨
        DocSeg.normalize c ∈
          (DocSeg.newMainLoop cands mn sn acc).map DocSeg.normalize := by
  intro cands
  induction cands with
  | nil => intro mn sn acc c hc; simp at hc
  | cons c0 rest ih =>
    intro mn sn acc c hc
    unfold DocSeg.newMainLoop
    by_cases h : (!mn.contains (DocSeg.normalize c0) &&
        !sn.contains (DocSeg.normalize c0)) = true
    · simp only [h, if_true]
      rcases List.mem_cons.1 hc with rfl | hcr
      · right; right
        rw [newMainLoop_acc]
        simp
      · rcases ih (mn ++ [DocSeg.normalize c0]) sn (acc ++ [c0]) c hcr with
          hm | hs | hk
        · rcases List.mem_append.1 hm with hm | hm
          · exact Or.inl hm
          · right; right
            simp only [List.mem_singleton] at hm
            rw [hm, newMainLoop_acc]
            simp
        · exact Or.inr (Or.inl hs)
        · exact Or.inr (Or.inr hk)
    · simp only [h, Bool.false_eq_true, if_false]
      rcases List.mem_cons.1 hc with rfl | hcr
      · cases hmn : mn.contains (DocSeg.normalize c) with
        | true => exact Or.inl (by simpa using hmn)
        | false =>
          cases hsn : sn.contains (DocSeg.normalize c) with
          | true => exact Or.inr (Or.inl (by simpa using hsn))
          | false => exact absurd (by rw [hmn, hsn]; rfl) h
      · exact ih mn sn acc c hcr

/-- If every candidate's normalized form is already present, nothing is
kept. -/
lemma newMainLoop_nothing :
    ∀ (cands mn sn acc : List String),
      (∀ c ∈ cands, DocSeg.normalize c ∈ mn ∨ DocSeg.normalize c ∈ sn) →
      DocSeg.newMainLoop cands mn sn acc = acc := by
  intro cands
  induction cands with
  | nil => intro mn sn acc _; rfl
  | cons c0 rest ih =>
    intro mn sn acc hcov
    unfold DocSeg.newMainLoop
    have h0 := hcov c0 (by simp)
    have hfalse : (!mn.contains (DocSeg.normalize c0) &&
        !sn.contains (DocSeg.normalize c0)) = false := by
      rcases h0 with h0 | h0 <;> simp [h0]
    simp only [hfalse, Bool.false_eq_true, if_false]
    exact ih mn sn acc (fun c hc => hcov c (List.mem_cons_of_mem c0 hc))

/-- A classified heading was accepted through the keyword rule or through a
keyword-independent rule. -/
lemma heading_keyword_or_base (t : String) (m : PyFloat) (a : Option PyFloat)
    (ks : List String) (pats : List (String → Bool))
    (h : DocSeg.is_heading_candidate t m a ks pats = true) :
    DocSeg.normalize (pyStrip t) ∈ ks ∨
      DocSeg.is_heading_candidate t m a [] pats = true := by
  by_cases he : t.isEmpty
  · simp [DocSeg.is_heading_candidate, he] at h
  · simp only [DocSeg.is_heading_candidate, he, Bool.false_eq_true, if_false]
    simp only [DocSeg.is_heading_candidate, he, Bool.false_eq_true,
      if_false] at h
    simp at h ⊢
    tauto

/-- Keyword-set monotonicity of the classifier from the empty set. -/
lemma heading_mono_of_base (t : String) (m : PyFloat) (a : Option PyFloat)
    (ks : List String) (pats : List (String → Bool))
    (h : DocSeg.is_heading_candidate t m a [] pats = true) :
    DocSeg.is_heading_candidate t m a ks pats = true := by
  by_cases he : t.isEmpty
  · simp [DocSeg.is_heading_candidate, he] at h
  · simp only [DocSeg.is_heading_candidate, he, Bool.false_eq_true, if_false]
    simp only [DocSeg.is_heading_candidate, he, Bool.false_eq_true,
      if_false] at h
    simp at h ⊢
    tauto

/-- Membership characterization of the discovery output. -/
lemma mem_discover {pages : List Page} {ks : List String}
    {pats : List (String → Bool)} {c : String} :
    c ∈ DocSeg.discover_heading_candidates pages ks pats ↔
      ∃ page ∈ pages, ∃ l ∈ DocSeg.pageLines page,
        c = collapseWs l.text ∧ c.isEmpty = false ∧
        DocSeg.is_numeric_like c = false ∧
        DocSeg.is_heading_candidate c (DocSeg.median_font_size page.words)
          l.avg_size ks pats = true := by
  rw [discover_eq_amended]
  unfold SpecSide.discoverAmended
  constructor
  · intro hc
    obtain ⟨lst, hlst, hcl⟩ := List.mem_flatten.1 hc
    obtain ⟨page, hpage, rfl⟩ := List.mem_map.1 hlst
    obtain ⟨ta, hta, hsome⟩ := List.mem_filterMap.1 hcl
    obtain ⟨l, hl, rfl⟩ := List.mem_map.1 hta
    by_cases hcond : (!(collapseWs l.text).isEmpty &&
        !DocSeg.is_numeric_like (collapseWs l.text) &&
        SpecSide.isHeadingRules (collapseWs l.text)
          (DocSeg.median_font_size page.words) l.avg_size ks pats) = true
    · rw [if_pos hcond] at hsome
      have hc2 : c = collapseWs l.text := by simpa using hsome.symm
      subst hc2
      simp only [Bool.and_eq_true, Bool.not_eq_true'] at hcond
      exact ⟨page, hpage, l, hl, rfl, hcond.1.1, hcond.1.2,
        by rw [heading_candidate_eq_rules]; exact hcond.2⟩
    · rw [if_neg hcond] at hsome
      simp at hsome
  · rintro ⟨page, hpage, l, hl, hc, hne, hnum, hhead⟩
    refine List.mem_flatten.2 ⟨_, List.mem_map_of_mem _ hpage, ?_⟩
    refine List.mem_filterMap.2
      ⟨(collapseWs l.text, l.avg_size), List.mem_map_of_mem _ hl, ?_⟩
    subst hc
    rw [if_pos]
    rw [Bool.and_eq_true, Bool.and_eq_true]
    refine ⟨⟨by simp [hne], by simp [hnum]⟩, ?_⟩
    rw [← heading_candidate_eq_rules]
    exact hhead

/-- The per-run keyword set built from a keyword file, as the segmenting
pipeline wires it (normalized main keywords with normalized subsection
keywords). -/
def kwSetOf (file : List String) : List String :=
  (DocSeg.load_keywords_file file).main.map DocSeg.normalize ++
    (DocSeg.load_keywords_file file).sub.map DocSeg.normalize

/-- The compiled regex patterns of a keyword file, for an arbitrary regex
compilation `compile`. -/
def patternsOf (compile : String → String → Bool) (file : List String) :
    List (String → Bool) :=
  ((DocSeg.load_keywords_file file).main_regex ++
    (DocSeg.load_keywords_file file).sub_regex).map compile

/-- One discovery pass over pages against the configuration held in a
keyword file. -/
def discoverFromFile (compile : String → String → Bool)
    (file : List String) (pages : List Page) : List String :=
  DocSeg.discover_heading_candidates pages (kwSetOf file)
    (patternsOf compile file)

lemma newMainLoop_subset :
    ∀ (cands mn sn acc : List String),
      ∀ x ∈ DocSeg.newMainLoop cands mn sn acc, x ∈ acc ∨ x ∈ cands := by
  intro cands
  induction cands with
  | nil =>
    intro mn sn acc x hx
    exact Or.inl (by simpa [DocSeg.newMainLoop] using hx)
  | cons c0 rest ih =>
    intro mn sn acc x hx
    unfold DocSeg.newMainLoop at hx
    by_cases h : (!mn.contains (DocSeg.normalize c0) &&
        !sn.contains (DocSeg.normalize c0)) = true
    · simp only [h, if_true] at hx
      rcases ih _ _ _ x hx with hacc | hrest
      · rcases List.mem_append.1 hacc with hacc | hc0
        · exact Or.inl hacc
        · right
          simp only [List.mem_singleton] at hc0
          simp [hc0]
      · exact Or.inr (List.mem_cons_of_mem c0 hrest)
    · simp only [h, Bool.false_eq_true, if_false] at hx
      rcases ih _ _ _ x hx with hacc | hrest
      · exact Or.inl hacc
      · exact Or.inr (List.mem_cons_of_mem c0 hrest)

lemma isEmpty_eq_nil {l : List String} (h : l.isEmpty = true) : l = [] := by
  cases l with
  | nil => rfl
  | cons a t => simp at h

/-- Structure of the keyword file after one update with `none` subsection
candidates: the parsed regex lists and subsection list are unchanged, and
every candidate's normalized text is covered by the parsed main or
subsection keywords. -/
lemma update_load (file cands : List String)
    (hfix : ∀ c ∈ cands, pyStrip c = c ∧ c.isEmpty = false) :
    (DocSeg.load_keywords_file
        (DocSeg.update_keywords_file file cands none)).main_regex =
      (DocSeg.load_keywords_file file).main_regex ∧
    (DocSeg.load_keywords_file
        (DocSeg.update_keywords_file file cands none)).sub_regex =
      (DocSeg.load_keywords_file file).sub_regex ∧
    (DocSeg.load_keywords_file
        (DocSeg.update_keywords_file file cands none)).sub =
      (DocSeg.load_keywords_file file).sub ∧
    ∀ c ∈ cands,
      DocSeg.normalize c ∈
          (DocSeg.load_keywords_file
            (DocSeg.update_keywords_file file cands none)).main.map
            DocSeg.normalize ∨
        DocSeg.normalize c ∈
          (DocSeg.load_keywords_file
            (DocSeg.update_keywords_file file cands none)).sub.map
            DocSeg.normalize := by
  have hcov := fun c hc =>
    newMainLoop_covers cands
      ((DocSeg.load_keywords_file file).main.map DocSeg.normalize)
      ((DocSeg.load_keywords_file file).sub.map DocSeg.normalize) [] c hc
  by_cases hempty : (DocSeg.newMainLoop cands
      ((DocSeg.load_keywords_file file).main.map DocSeg.normalize)
      ((DocSeg.load_keywords_file file).sub.map DocSeg.normalize) []).isEmpty
  · have hfile : DocSeg.update_keywords_file file cands none = file := by
      unfold DocSeg.update_keywords_file
      dsimp only
      rw [if_pos]
      simp [hempty]
    rw [hfile]
    refine ⟨rfl, rfl, rfl, ?_⟩
    intro c hc
    rcases hcov c hc with hm | hs | hk
    · exact Or.inl hm
    · exact Or.inr hs
    · rw [isEmpty_eq_nil hempty] at hk
      simp at hk
  · have hfile : DocSeg.update_keywords_file file cands none =
        file ++ ("" :: "# Auto-discovered keywords" ::
          (stableSort (fun a b => lexLe (pyLower a).toList (pyLower b).toList)
            (DocSeg.newMainLoop cands
              ((DocSeg.load_keywords_file file).main.map DocSeg.normalize)
              ((DocSeg.load_keywords_file file).sub.map DocSeg.normalize)
              [])).map (fun v => "main: " ++ v)) := by
      unfold DocSeg.update_keywords_file
      dsimp only
      rw [if_neg]
      · simp [stableSort, DocSeg.newSubLoop]
      · simp [hempty]
    rw [hfile, load_keywords_append, load_block]
    · refine ⟨by simp [kwAppend], by simp [kwAppend], by simp [kwAppend], ?_⟩
      intro c hc
      rcases hcov c hc with hm | hs | hk
      · left
        simp only [kwAppend, List.map_append, List.mem_append]
        exact Or.inl hm
      · right
        simpa [kwAppend] using hs
      · left
        simp only [kwAppend, List.map_append, List.mem_append]
        right
        obtain ⟨y, hy, hyn⟩ := List.mem_map.1 hk
        exact List.mem_map.2 ⟨y, mem_stableSort.2 hy, hyn⟩
    · intro v hv
      have hvm : v ∈ DocSeg.newMainLoop cands
          ((DocSeg.load_keywords_file file).main.map DocSeg.normalize)
          ((DocSeg.load_keywords_file file).sub.map DocSeg.normalize) [] :=
        mem_stableSort.1 hv
      rcases newMainLoop_subset _ _ _ _ v hvm with hacc | hcand
      · simp at hacc
      · exact hfix v hcand

/-- An update whose candidates are all already covered leaves the file
unchanged. -/
lemma update_nothing (file cands : List String)
    (hcov : ∀ c ∈ cands,
      DocSeg.normalize c ∈
          (DocSeg.load_keywords_file file).main.map DocSeg.normalize ∨
        DocSeg.normalize c ∈
          (DocSeg.load_keywords_file file).sub.map DocSeg.normalize) :
    DocSeg.update_keywords_file file cands none = file := by
  unfold DocSeg.update_keywords_file
  dsimp only
  rw [if_pos]
  rw [newMainLoop_nothing cands _ _ [] hcov]
  simp

/-- C7: running discovery and keyword update a second time over unchanged
pages, with the keyword configuration reloaded from the updated file,
appends nothing further: the file after the second update equals the file
after the first. -/
theorem C7_discovery_update_idempotent :
    ∀ (compile : String → String → Bool) (file : List String)
      (pages : List Page),
      DocSeg.update_keywords_file
          (DocSeg.update_keywords_file file
            (discoverFromFile compile file pages) none)
          (discoverFromFile compile
            (DocSeg.update_keywords_file file
              (discoverFromFile compile file pages) none)
            pages)
          none =
        DocSeg.update_keywords_file file
          (discoverFromFile compile file pages) none := by
  intro compile file pages
  have hfix1 : ∀ c ∈ discoverFromFile compile file pages,
      pyStrip c = c ∧ c.isEmpty = false := by
    intro c hc
    obtain ⟨page, _, l, _, hcc, hne, _, _⟩ :=
      mem_discover.1 (by exact hc)
    exact ⟨by rw [hcc]; exact pyStrip_collapseWs _, hne⟩
  obtain ⟨hreg1, hreg2, hsub, hcov⟩ :=
    update_load file (discoverFromFile compile file pages) hfix1
  have hpat : patternsOf compile
      (DocSeg.update_keywords_file file
        (discoverFromFile compile file pages) none) =
      patternsOf compile file := by
    unfold patternsOf
    rw [hreg1, hreg2]
  apply update_nothing
  intro c hc
  obtain ⟨page, hpage, l, hl, hcc, hne, hnum, hhead⟩ :=
    mem_discover.1 (by exact hc)
  have hcfix : pyStrip c = c := by
    rw [hcc]
    exact pyStrip_collapseWs _
  rcases heading_keyword_or_base _ _ _ _ _ hhead with hkw | hbase
  · rw [hcfix] at hkw
    exact List.mem_append.1 hkw
  · have hh0 : DocSeg.is_heading_candidate c
        (DocSeg.median_font_size page.words) l.avg_size (kwSetOf file)
        (patternsOf compile file) = true := by
      apply heading_mono_of_base
      rw [← hpat]
      exact hbase
    have hc1mem : c ∈ discoverFromFile compile file pages :=
      mem_discover.2 ⟨page, hpage, l, hl, hcc, hne, hnum, hh0⟩
    exact hcov c hc1mem
